import Mathlib

/-!
# Verification of the krkn resiliency-scoring core

Shallow embedding of `krkn/resiliency/score.py` and
`krkn/resiliency/resiliency.py` (paigerube14/kraken), together with proofs
about the embedded definitions.

Modelling conventions:
* Python `dict`s are modelled as association lists in insertion order with
  unique keys; dict construction that can overwrite keys is modelled by
  `dictOfList` (last assignment wins, first-insertion order).
* Python machine floats: the source computes scores with binary64 `/` and
  `*`.  These are emulated exactly over integers: `flDiv a b` is the
  IEEE-754 binary64 round-to-nearest-even value of `a / b` as a dyadic pair
  `(m, e)` denoting `m * 2^e`.  The exponent range is unbounded, which
  coincides with binary64 for all magnitudes below `2^1024` (far above
  anything the claims touch).
* Python `int()` applied to a float truncates toward zero.
* The Prometheus query layer (`krkn.prometheus.collector.evaluate_slos`) is
  not part of the sources; the orchestrator treats it as an opaque
  collaborator.  It is modelled as an explicit argument of type
  `Except String (List (String × Bool))`: either an evaluation-result map
  or a raised exception.
-/

/-! ## Association lists standing for Python dicts -/

/-- `d.get(k)` / `k in d` for a Python dict modelled as an association list. -/
def alookup {α : Type} (k : String) : List (String × α) → Option α
  | [] => none
  | p :: ps => if p.1 = k then some p.2 else alookup k ps

/-- One Python dict assignment `d[k] = v`: overwrite in place if the key is
present, otherwise append (insertion order is preserved). -/
def dictInsert {α : Type} (d : List (String × α)) (k : String) (v : α) :
    List (String × α) :=
  if (alookup k d).isSome then
    d.map fun p => if p.1 = k then (k, v) else p
  else d ++ [(k, v)]

/-- A Python dict built by successive assignment from a (possibly
duplicated) pair list, as a dict comprehension does: later pairs overwrite
earlier ones, order is first-insertion order. -/
def dictOfList {α : Type} (l : List (String × α)) : List (String × α) :=
  l.foldl (fun d p => dictInsert d p.1 p.2) []

/-! ## Exact emulation of binary64 arithmetic on integer operands -/

/-- Base-2 logarithm with explicit structural fuel, so that kernel reduction
works; `log2fuel n n` equals `⌊log₂ n⌋` for every `n ≥ 1`. -/
def log2fuel : Nat → Nat → Nat
  | 0, _ => 0
  | fuel + 1, n => if n ≤ 1 then 0 else log2fuel fuel (n / 2) + 1

/-- `⌊log₂ n⌋` (and 0 for `n = 0`), kernel-reducible. -/
def natLog2 (n : Nat) : Nat := log2fuel n n

/-- Round the nonnegative rational `x / y` to the nearest integer, ties to
even (the IEEE-754 default rounding applied to a scaled significand). -/
def rnheDiv (x y : Nat) : Nat :=
  let q := x / y
  let r := x % y
  if 2 * r < y then q
  else if y < 2 * r then q + 1
  else if q % 2 = 0 then q else q + 1

/-- The exponent `e` with `2^e ≤ a/b < 2^(e+1)`, for positive `a`, `b`. -/
def fexp (a b : Nat) : Int :=
  let e0 : Int := (natLog2 a : Int) - (natLog2 b : Int)
  let lt : Bool :=
    if 0 ≤ e0 then decide (a < b * 2 ^ e0.toNat)
    else decide (a * 2 ^ (-e0).toNat < b)
  if lt then e0 - 1 else e0

/-- Round the positive rational `a / b` to the nearest binary64 value
(53-bit significand, round half to even), as a dyadic pair `(m, e)`
denoting `m * 2^e`. -/
def flDiv (a b : Nat) : Nat × Int :=
  let e := fexp a b
  let t : Int := 52 - e
  let m :=
    if 0 ≤ t then rnheDiv (a * 2 ^ t.toNat) b
    else rnheDiv a (b * 2 ^ (-t).toNat)
  (m, e - 52)

/-- Truncate the nonnegative dyadic `m * 2^e` toward zero. -/
def truncDyadic (m : Nat) (e : Int) : Nat :=
  if 0 ≤ e then m * 2 ^ e.toNat else m / 2 ^ (-e).toNat

/-- Python `int(a / b)` for integers `a`, `b` with `b ≠ 0`: the binary64
quotient (correctly rounded), truncated toward zero. -/
def pyIntDiv (a b : Int) : Int :=
  if a = 0 then 0
  else
    let p := flDiv a.natAbs b.natAbs
    let v : Int := (truncDyadic p.1 p.2 : Int)
    if (0 < a) = (0 < b) then v else -v

/-- The positive dyadic `m * 2^e` times 100 (an exact product in the
source, as binary64 multiplication is correctly rounded), rounded again to
binary64. -/
def flTimes100 (m : Nat) (e : Int) : Nat × Int :=
  if 0 ≤ e then flDiv (m * 100 * 2 ^ e.toNat) 1
  else flDiv (m * 100) (2 ^ (-e).toNat)

/-- `score.py` line 68: `0 if total_points == 0 else
int(((total_points - points_lost) / total_points) * 100)`, with the two
binary64 operations emulated exactly. -/
def pyScore (tp pl : Int) : Int :=
  if tp = 0 then 0
  else
    let k := tp - pl
    if k = 0 then 0
    else
      let p1 := flDiv k.natAbs tp.natAbs
      let p2 := flTimes100 p1.1 p1.2
      let v : Int := (truncDyadic p2.1 p2.2 : Int)
      if (0 < k) = (0 < tp) then v else -v

/-! ## `krkn/resiliency/score.py` -/

/-- `score.py` line 5: `DEFAULT_WEIGHTS = {"critical": 3, "warning": 1}`. -/
def DEFAULT_WEIGHTS : List (String × Int) := [("critical", 3), ("warning", 1)]

/-- `score.py` class `SLOResult`: evaluation outcome of a single SLO.
`custom_weight` is the constructor's optional `weight` argument
(`_custom_weight` in the source). -/
structure SLOResult where
  name : String
  severity : String
  passed : Bool
  custom_weight : Option Int
deriving DecidableEq, Repr

/-- `SLOResult.weight`: the custom weight if set, otherwise
`severity_weights.get(severity, severity_weights.get("warning", 1))`. -/
def SLOResult.weight (s : SLOResult) (severity_weights : List (String × Int)) :
    Int :=
  match s.custom_weight with
  | some w => w
  | none =>
    match alookup s.severity severity_weights with
    | some v => v
    | none => (alookup "warning" severity_weights).getD 1

/-- A value of the `slo_definitions` mapping: either the old format (a bare
severity string) or the new format (a dict with optional `severity` and
`weight` entries). -/
inductive SloDef where
  | sev (severity : String)
  | record (severity : Option String) (weight : Option Int)
deriving DecidableEq, Repr

/-- `score.py` lines 52–57: severity extracted from a definition
(`slo_def.get("severity", "warning")` in the dict format). -/
def SloDef.severityOf : SloDef → String
  | .sev s => s
  | .record s _ => s.getD "warning"

/-- `score.py` lines 52–57: custom weight extracted from a definition
(`slo_def.get("weight")` in the dict format, `None` in the old format). -/
def SloDef.weightOf : SloDef → Option Int
  | .sev _ => none
  | .record _ w => w

/-- `score.py` lines 44–59: the `SLOResult`s built from the definitions,
skipping every SLO name absent from `prometheus_results`. -/
def sloObjectsOfDefs (slo_definitions : List (String × SloDef))
    (prometheus_results : List (String × Bool)) : List SLOResult :=
  slo_definitions.filterMap fun p =>
    match alookup p.1 prometheus_results with
    | none => none
    | some b => some ⟨p.1, p.2.severityOf, b, p.2.weightOf⟩

/-- `score.py` lines 61–63: the `SLOResult`s built from the health-check
results, severity forced to `"critical"`, no custom weight. -/
def healthObjects (health_check_results : List (String × Bool)) :
    List SLOResult :=
  health_check_results.map fun p => ⟨p.1, "critical", p.2, none⟩

/-- The breakdown dict returned by `calculate_resiliency_score`. -/
structure Breakdown where
  total_points : Int
  points_lost : Int
  passed : Nat
  failed : Nat
deriving DecidableEq, Repr

/-- All `SLOResult`s included in a score computation (definition-derived
ones first, then health-check-derived ones, as the source appends). -/
def sloObjects (slo_definitions : List (String × SloDef))
    (prometheus_results : List (String × Bool))
    (health_check_results : List (String × Bool)) : List SLOResult :=
  sloObjectsOfDefs slo_definitions prometheus_results ++
    healthObjects health_check_results

/-- `score.py` `calculate_resiliency_score`: the 0–100 score and the
breakdown dict.  The final score is emulated binary64 arithmetic
(`pyScore`), everything else is exact integer arithmetic as in the
source. -/
def calculate_resiliency_score (slo_definitions : List (String × SloDef))
    (prometheus_results : List (String × Bool))
    (health_check_results : List (String × Bool)) : Int × Breakdown :=
  let objs := sloObjects slo_definitions prometheus_results
    health_check_results
  let total_points := (objs.map (fun s => s.weight DEFAULT_WEIGHTS)).sum
  let points_lost :=
    ((objs.filter fun s => !s.passed).map
      (fun s => s.weight DEFAULT_WEIGHTS)).sum
  let score := pyScore total_points points_lost
  (score,
    ⟨total_points, points_lost,
      (objs.filter fun s => s.passed).length,
      (objs.filter fun s => !s.passed).length⟩)


/-! ## `krkn/resiliency/resiliency.py`: raw YAML values and the loader -/

/-- A parsed YAML value as `yaml.safe_load` produces it (scalars, sequences,
mappings with string keys). -/
inductive YVal where
  | null
  | bool (b : Bool)
  | int (n : Int)
  | str (s : String)
  | list (xs : List YVal)
  | dict (fs : List (String × YVal))
deriving Repr

/-- Decimal digits of a natural number with explicit structural fuel. -/
def natReprAux : Nat → Nat → String
  | 0, _ => ""
  | fuel + 1, n =>
    if n < 10 then String.singleton (Char.ofNat (48 + n))
    else natReprAux fuel (n / 10) ++ String.singleton (Char.ofNat (48 + n % 10))

/-- Decimal rendering of a natural number, kernel-reducible. -/
def natRepr (n : Nat) : String := natReprAux (n + 1) n

/-- Decimal rendering of an integer. -/
def intRepr (i : Int) : String :=
  if i < 0 then "-" ++ natRepr i.natAbs else natRepr i.natAbs

/-- Python truthiness of a YAML value (`None`, `False`, `0`, `""`, `[]` and
`{}` are falsy). -/
def YVal.truthy : YVal → Bool
  | .null => false
  | .bool b => b
  | .int n => n != 0
  | .str s => s ≠ ""
  | .list xs => !xs.isEmpty
  | .dict fs => !fs.isEmpty

/-- Python `str()` of a YAML value.  Scalars are rendered exactly; the
rendering of nested containers is abbreviated, which no claim depends on
(a container-valued `severity` or `description` is already degenerate
input). -/
def pyStr : YVal → String
  | .null => "None"
  | .bool true => "True"
  | .bool false => "False"
  | .int n => intRepr n
  | .str s => s
  | .list _ => "[...]"
  | .dict _ => "\x7b...\x7d"

/-- ASCII lowercase of one character (`str.lower()` coincides with this on
the ASCII severities the sources use). -/
def lowerChar (c : Char) : Char :=
  if 65 <= c.toNat && c.toNat <= 90 then Char.ofNat (c.toNat + 32) else c

/-- ASCII `str.lower()` on a string. -/
def strLower (s : String) : String := String.mk (s.data.map lowerChar)

/-- Whether a YAML value is a sequence. -/
def YVal.isList : YVal → Bool
  | .list _ => true
  | _ => false

/-- A normalized SLO record as `_normalise_alerts` builds it:
`{"name": ..., "expr": ..., "severity": ..., "weight": ...}`.  The raw
`expr` value is kept as parsed; YAML `weight` values are modelled as
integers (a non-integer weight would be a type error downstream in the
source and is outside every claim). -/
structure Slo where
  name : String
  expr : YVal
  severity : String
  weight : Option Int
deriving Repr

/-- `resiliency.py` lines 354–365, one loop iteration: `None` when the
entry is skipped (not a mapping, or without both `expr` and `severity`),
otherwise the normalized record.  The record's name is
`alert.get("description") or f"slo_{idx}"` and its severity is
`str(alert["severity"]).lower()`. -/
def norm1 (idx : Nat) (alert : YVal) : Option Slo :=
  match alert with
  | .dict fs =>
    match alookup "expr" fs, alookup "severity" fs with
    | some e, some sv =>
      let name :=
        match alookup "description" fs with
        | some d => if d.truthy then pyStr d else "slo_" ++ natRepr idx
        | none => "slo_" ++ natRepr idx
      let weight :=
        match alookup "weight" fs with
        | some (.int n) => some n
        | _ => none
      some ⟨name, e, strLower (pyStr sv), weight⟩
    | _, _ => none
  | _ => none

/-- The warning logged for a skipped alert entry. -/
def skipWarning (idx : Nat) : String :=
  "Skipping invalid alert entry at index " ++ natRepr idx

/-- The loop of `_normalise_alerts` over the raw entries, carrying the
running index; returns the normalized records and the emitted warnings. -/
def normLoop (idx : Nat) : List YVal → List Slo × List String
  | [] => ([], [])
  | alert :: rest =>
    let tail := normLoop (idx + 1) rest
    match norm1 idx alert with
    | some slo => (slo :: tail.1, tail.2)
    | none => (tail.1, skipWarning idx :: tail.2)

/-- `resiliency.py` `_normalise_alerts`: fatal `ValueError` when the raw
structure is not a list, otherwise the normalized records (plus the
warnings logged for skipped entries). -/
def _normalise_alerts (raw_alerts : YVal) : Except String (List Slo × List String) :=
  match raw_alerts with
  | .list xs => .ok (normLoop 0 xs)
  | _ => .error "SLO configuration must be a list under key 'slos' or top-level list"

/-! ## `krkn/resiliency/resiliency.py`: the `Resiliency` orchestrator -/

/-- A scenario report appended by `add_scenario_report` (window timestamps
are modelled as epoch integers; their ISO rendering is external to the
sources). -/
structure ScenarioReport where
  name : String
  window_start : Int
  window_end : Int
  score : Int
  weight : Int
  breakdown : Breakdown
  slo_results : List (String × Bool)
  health_check_results : List (String × Bool)
deriving DecidableEq, Repr

/-- The `resiliency_summary` structure produced by `finalize_report`. -/
structure Summary where
  scenarios : List (String × Int)
  resiliency_score : Int
  passed_slos : Nat
  total_slos : Nat
deriving DecidableEq, Repr

/-- The detailed-report structure produced by `finalize_report`. -/
structure Detailed where
  scenarios : List ScenarioReport
deriving DecidableEq, Repr

/-- The state of a `Resiliency` instance.  The two `_attr_present` flags
model Python attribute existence as tested by `hasattr`; `__init__` assigns
both attributes (to `None`), so both flags are `true` from construction
on. -/
structure Resiliency where
  _slos : List Slo
  scenario_reports : List ScenarioReport
  summary : Option Summary
  detailed_report : Option Detailed
  summary_attr_present : Bool
  detailed_attr_present : Bool
deriving Repr

/-- `Resiliency.__init__` after the alerts file has been loaded and
normalized: empty report list, `summary` and `detailed_report` assigned
`None` (so the attributes exist). -/
def Resiliency.init (slos : List Slo) : Resiliency :=
  ⟨slos, [], none, none, true, true⟩

/-- `resiliency.py` lines 57/111/156: the name-keyed definitions dict
`{slo["name"]: {"severity": ..., "weight": ...} for slo in self._slos}`. -/
def sloDefsOf (slos : List Slo) : List (String × SloDef) :=
  dictOfList (slos.map fun r => (r.name, SloDef.record (some r.severity) r.weight))

/-- `Resiliency.add_scenario_report`: evaluates the SLOs for one scenario
window (the Prometheus collaborator's outcome is the `slo_results_outcome`
argument: a result map, or a raised exception which propagates), scores
them, appends exactly one report and returns the score. -/
def add_scenario_report (s : Resiliency) (scenario_name : String)
    (slo_results_outcome : Except String (List (String × Bool)))
    (start_time end_time : Int) (weight : Int)
    (health_check_results : List (String × Bool)) :
    Except String (Resiliency × Int) :=
  match slo_results_outcome with
  | .error e => .error e
  | .ok slo_results =>
    let slo_defs := sloDefsOf s._slos
    let res := calculate_resiliency_score slo_defs slo_results health_check_results
    .ok
      ({ s with
          scenario_reports := s.scenario_reports ++
            [⟨scenario_name, start_time, end_time, res.1, weight, res.2,
              slo_results, health_check_results⟩] },
        res.1)

/-- `Resiliency.compact_breakdown` (the report structure always carries its
`breakdown`/`score` fields here, so the `try` branch of the source always
succeeds). -/
structure Compact where
  resiliency_score : Int
  passed_slos : Nat
  total_slos : Nat
deriving DecidableEq, Repr

/-- `Resiliency.compact_breakdown`: the compact per-scenario projection. -/
def compact_breakdown (report : ScenarioReport) : Compact :=
  ⟨report.score, report.breakdown.passed,
    report.breakdown.passed + report.breakdown.failed⟩


/-- One telemetry item of a scenario batch.  The source accepts both plain
dicts and structured objects and reads the same three fields from either
shape; both are modelled by this record.  A `none` timestamp stands for an
absent (or `None`) field. -/
structure TelItem where
  start_timestamp : Option Int
  end_timestamp : Option Int
  scenario : Option String
  resiliency_report : Option Compact
deriving DecidableEq, Repr

/-- Python truthiness of an optional timestamp (`None` and `0` are falsy),
as tested by `if st_ts and en_ts:`. -/
def truthyTs : Option Int → Bool
  | none => false
  | some n => n != 0

/-- The window used for one batch item: the item's own timestamps when both
are truthy, else the batch fallback window. -/
def itemWindow (tel : TelItem) (batch_start batch_end : Int) : Int × Int :=
  match tel.start_timestamp, tel.end_timestamp with
  | some a, some b => if a != 0 && b != 0 then (a, b) else (batch_start, batch_end)
  | _, _ => (batch_start, batch_end)

/-- A default report value for `List.getLastD` (never reached: the list is
non-empty at every use site). -/
def emptyReport : ScenarioReport := ⟨"", 0, 0, 0, 0, ⟨0, 0, 0, 0⟩, [], []⟩

/-- The loop body of `Resiliency.add_scenario_reports`, processing the
items in order.  `oracle i` is the outcome of the Prometheus evaluation for
the `i`-th item (counted from the start of the batch): a result map or a
raised exception.  A raised exception is caught, an error line is logged
and the item is left untouched; processing continues.  Returns the final
state, the processed items (in order) and the logged error lines. -/
def addReportsLoop (oracle : Nat → Except String (List (String × Bool)))
    (scenario_type : String) (batch_start batch_end : Int) (weight : Int) :
    Resiliency → Nat → List TelItem → Resiliency × List TelItem × List String
  | s, _, [] => (s, [], [])
  | s, i, tel :: rest =>
    let w := itemWindow tel batch_start batch_end
    let scen_name := tel.scenario.getD scenario_type
    match add_scenario_report s scen_name (oracle i) w.1 w.2 weight [] with
    | .ok (s', _score) =>
      let compact := compact_breakdown (s'.scenario_reports.getLastD emptyReport)
      let tel' := { tel with resiliency_report := some compact }
      let next := addReportsLoop oracle scenario_type batch_start batch_end
        weight s' (i + 1) rest
      (next.1, tel' :: next.2.1, next.2.2)
    | .error e =>
      let next := addReportsLoop oracle scenario_type batch_start batch_end
        weight s (i + 1) rest
      (next.1, tel :: next.2.1,
        ("Resiliency per-scenario evaluation failed: " ++ e) :: next.2.2)

/-- `Resiliency.add_scenario_reports`: evaluate every telemetry item of a
batch, appending one scenario report per successfully evaluated item and
attaching the compact breakdown to it in place; a per-item exception is
caught and logged and that item is skipped.  The call itself always
returns (the loop body is wrapped in `try`/`except Exception`). -/
def add_scenario_reports (s : Resiliency) (scenario_telemetries : List TelItem)
    (oracle : Nat → Except String (List (String × Bool)))
    (scenario_type : String) (batch_start_dt batch_end_dt : Int)
    (weight : Int) : Resiliency × List TelItem × List String :=
  addReportsLoop oracle scenario_type batch_start_dt batch_end_dt weight
    s 0 scenario_telemetries

/-- `Resiliency.finalize_report`: lifecycle error when no scenario report
was added; otherwise the weighted average (binary64 division of the two
integer sums, truncated by `int()` — a zero total weight raises
`ZeroDivisionError`), then the full-window evaluation (outcome
`full_oracle`) and the cached `summary`/`detailed_report`. -/
def finalize_report (s : Resiliency)
    (full_oracle : Except String (List (String × Bool))) :
    Except String Resiliency :=
  if s.scenario_reports.isEmpty then
    .error "No scenario reports added - nothing to finalize"
  else
    let total_weight := (s.scenario_reports.map (fun r => r.weight)).sum
    if total_weight = 0 then .error "division by zero"
    else
      let resiliency_score :=
        pyIntDiv ((s.scenario_reports.map (fun r => r.score * r.weight)).sum)
          total_weight
      match full_oracle with
      | .error e => .error e
      | .ok full_results =>
        let slo_defs := sloDefsOf s._slos
        let full := calculate_resiliency_score slo_defs full_results []
        .ok
          { s with
              summary := some
                ⟨dictOfList (s.scenario_reports.map fun r => (r.name, r.score)),
                  resiliency_score,
                  full.2.passed,
                  full.2.passed + full.2.failed⟩,
              detailed_report := some ⟨s.scenario_reports⟩ }

/-- `Resiliency.get_summary`: guarded by `hasattr(self, "summary")`; when
the attribute exists the stored value (possibly `None`) is returned. -/
def get_summary (s : Resiliency) : Except String (Option Summary) :=
  if s.summary_attr_present then .ok s.summary
  else .error "finalize_report() must be called first"

/-- `Resiliency.get_detailed_report`: guarded by
`hasattr(self, "detailed_report")`. -/
def get_detailed_report (s : Resiliency) : Except String (Option Detailed) :=
  if s.detailed_attr_present then .ok s.detailed_report
  else .error "finalize_report() must be called first"

/-! ## JSON serialization (`json.dumps` / `json.dump(indent=2)`)

The detailed report has fixed nesting depth, so its serialization is
written as one non-recursive function per layer, mirroring what
`json.dumps` produces for it: default separators `", "`/`": "` in compact
mode and `","` + newline-indent/`": "` with `indent=2`, strings escaped as
by the default encoder. -/

/-- Hexadecimal digit character for `d < 16`. -/
def hexDigit (d : Nat) : Char :=
  if d < 10 then Char.ofNat (48 + d) else Char.ofNat (87 + d)

/-- `\uXXXX` escape for a code unit below `0x10000`. -/
def uEscape (n : Nat) : String :=
  "\\u" ++ String.mk [hexDigit (n / 4096 % 16), hexDigit (n / 256 % 16),
    hexDigit (n / 16 % 16), hexDigit (n % 16)]

/-- The default `json.dumps` escaping of one character (`ensure_ascii`
behaviour: two-character escapes for the common controls, `\uXXXX` for
other controls and all non-ASCII, surrogate pairs above `0xFFFF`). -/
def escapeChar (c : Char) : String :=
  if c = '"' then "\\\""
  else if c = '\\' then "\\\\"
  else if c = '\n' then "\\n"
  else if c = '\t' then "\\t"
  else if c = '\r' then "\\r"
  else if c.toNat = 8 then "\\b"
  else if c.toNat = 12 then "\\f"
  else if c.toNat < 32 then uEscape c.toNat
  else if c.toNat < 127 then String.singleton c
  else if c.toNat < 65536 then uEscape c.toNat
  else
    uEscape (55296 + (c.toNat - 65536) / 1024) ++
      uEscape (56320 + (c.toNat - 65536) % 1024)

/-- A JSON string literal for `s`. -/
def jstr (s : String) : String :=
  "\"" ++ String.join (s.data.map escapeChar) ++ "\""

/-- `", "`-joined concatenation. -/
def joinSep (sep : String) : List String → String
  | [] => ""
  | [x] => x
  | x :: rest => x ++ sep ++ joinSep sep rest

/-- A JSON bool. -/
def jbool (b : Bool) : String := if b then "true" else "false"

/-- Compact JSON object with pre-rendered field values. -/
def jobj (fields : List (String × String)) : String :=
  "\x7b" ++ joinSep ", " (fields.map fun p => jstr p.1 ++ ": " ++ p.2) ++ "\x7d"

/-- Compact JSON list with pre-rendered elements. -/
def jarr (elems : List String) : String :=
  "[" ++ joinSep ", " elems ++ "]"

/-- The ISO rendering of a window timestamp.  Timestamps are modelled as
epoch integers; `datetime.isoformat` is external to the sources and its
exact text is irrelevant to every claim, so the decimal rendering stands
in for it. -/
def isoStr (t : Int) : String := intRepr t

/-- Compact JSON of a breakdown dict. -/
def jsonBreakdown (b : Breakdown) : String :=
  jobj [("total_points", intRepr b.total_points),
    ("points_lost", intRepr b.points_lost),
    ("passed", intRepr b.passed),
    ("failed", intRepr b.failed)]

/-- Compact JSON of a name-to-bool results dict. -/
def jsonBoolMap (m : List (String × Bool)) : String :=
  jobj (m.map fun p => (p.1, jbool p.2))

/-- Compact JSON of one scenario report. -/
def jsonReport (r : ScenarioReport) : String :=
  jobj [("name", jstr r.name),
    ("window", jobj [("start", jstr (isoStr r.window_start)),
      ("end", jstr (isoStr r.window_end))]),
    ("score", intRepr r.score),
    ("weight", intRepr r.weight),
    ("breakdown", jsonBreakdown r.breakdown),
    ("slo_results", jsonBoolMap r.slo_results),
    ("health_check_results", jsonBoolMap r.health_check_results)]

/-- `json.dumps(detailed)`: the one-line compact serialization of the
detailed report (`json.dumps(None)` is `"null"` for an unset report). -/
def jsonDetailed (d : Option Detailed) : String :=
  match d with
  | none => "null"
  | some d => jobj [("scenarios", jarr (d.scenarios.map jsonReport))]

/-- `indent=2` line break followed by `lvl` indentation steps. -/
def nlIndent (lvl : Nat) : String := "\n" ++ String.mk (List.replicate (2 * lvl) ' ')

/-- Indented JSON object at nesting level `lvl` with pre-rendered values. -/
def jobjInd (lvl : Nat) (fields : List (String × String)) : String :=
  if fields.isEmpty then "\x7b\x7d"
  else
    "\x7b" ++ nlIndent (lvl + 1) ++
      joinSep ("," ++ nlIndent (lvl + 1))
        (fields.map fun p => jstr p.1 ++ ": " ++ p.2) ++
      nlIndent lvl ++ "\x7d"

/-- Indented JSON list at nesting level `lvl` with pre-rendered elements. -/
def jarrInd (lvl : Nat) (elems : List String) : String :=
  if elems.isEmpty then "[]"
  else
    "[" ++ nlIndent (lvl + 1) ++
      joinSep ("," ++ nlIndent (lvl + 1)) elems ++
      nlIndent lvl ++ "]"

/-- `indent=2` JSON of one scenario report at nesting level 2. -/
def jsonReportInd (r : ScenarioReport) : String :=
  jobjInd 2 [("name", jstr r.name),
    ("window", jobjInd 3 [("start", jstr (isoStr r.window_start)),
      ("end", jstr (isoStr r.window_end))]),
    ("score", intRepr r.score),
    ("weight", intRepr r.weight),
    ("breakdown", jobjInd 3 [("total_points", intRepr r.breakdown.total_points),
      ("points_lost", intRepr r.breakdown.points_lost),
      ("passed", intRepr r.breakdown.passed),
      ("failed", intRepr r.breakdown.failed)]),
    ("slo_results", jobjInd 3 (r.slo_results.map fun p => (p.1, jbool p.2))),
    ("health_check_results",
      jobjInd 3 (r.health_check_results.map fun p => (p.1, jbool p.2)))]

/-- `json.dump(detailed, fp, indent=2)`: the 2-space-indented serialization
of the detailed report written in standalone mode. -/
def jsonDetailedIndent (d : Option Detailed) : String :=
  match d with
  | none => "null"
  | some d =>
    jobjInd 0 [("scenarios", jarrInd 1 (d.scenarios.map jsonReportInd))]

/-! ## `Resiliency.finalize_and_save` -/

/-- The externally observable side effects of `finalize_and_save`. -/
inductive Effect where
  | stdout (line : String)
  | file_write (path : String) (content : String)
  | log_error (msg : String)
  | log_info (msg : String)
deriving DecidableEq, Repr

/-- The fixed sentinel token prefixed to the controller-mode stdout line. -/
def SENTINEL : String := "KRKN_RESILIENCY_REPORT_JSON:"

/-- `Resiliency.finalize_and_save`: finalize, then persist the detailed
report per run mode.  Every exception inside (`finalize_report`, stdout
emission, file write) is caught and logged, so the function always returns
a state and an effect list instead of raising. -/
def finalize_and_save (s : Resiliency)
    (full_oracle : Except String (List (String × Bool)))
    (run_mode : String) (detailed_path : String) :
    Resiliency × List Effect :=
  match finalize_report s full_oracle with
  | .error e =>
    (s, [.log_error ("Failed to finalize resiliency scoring: " ++ e)])
  | .ok s' =>
    match get_detailed_report s' with
    | .error e =>
      (s', [.log_error ("Failed to finalize resiliency scoring: " ++ e)])
    | .ok detailed =>
      if run_mode = "controller" then
        (s', [.stdout (SENTINEL ++ jsonDetailed detailed),
          .log_info "Resiliency report logged to stdout for krknctl."])
      else
        (s', [.file_write detailed_path (jsonDetailedIndent detailed),
          .log_info ("Resiliency report written: " ++ detailed_path)])

/-! ## Auxiliary definitions used by the statements -/

/-- The rational value of a dyadic pair `(m, e)`, i.e. `m * 2^e`; used to
state exactness and error bounds of the binary64 emulation. -/
def dval (p : Nat × Int) : ℚ := (p.1 : ℚ) * (2 : ℚ) ^ p.2

/-- An alert entry that is not a mapping or lacks both `expr` and
`severity` (the skip condition named by the specification). -/
def entryLacksBoth : YVal → Bool
  | .dict fs => (alookup "expr" fs).isNone && (alookup "severity" fs).isNone
  | _ => true

/-- Default telemetry item, used with `List.getD` in batch statements. -/
def defItem : TelItem := ⟨none, none, none, none⟩

/-- No raw newline character occurs in the string (the controller-mode
stdout contract). -/
def hasNoNL (s : String) : Prop := ∀ c ∈ s.data, c ≠ '\n'

instance (s : String) : Decidable (hasNoNL s) :=
  inferInstanceAs (Decidable (∀ c ∈ s.data, c ≠ '\n'))

/-! ## Helper lemmas on association lists and list sums -/

theorem alookup_eq_none_iff {α : Type} (k : String) (d : List (String × α)) :
    alookup k d = none ↔ k ∉ d.map Prod.fst := by
  induction d with
  | nil => simp [alookup]
  | cons p ps ih =>
    simp only [alookup, List.map_cons, List.mem_cons]
    by_cases h : p.1 = k
    · subst h; simp
    · rw [if_neg h, ih]
      constructor
      · intro hk hor
        rcases hor with hk1 | hmem
        · exact h hk1.symm
        · exact hk hmem
      · intro hk hmem
        exact hk (Or.inr hmem)

theorem alookup_append {α : Type} (k : String) (d₁ d₂ : List (String × α)) :
    alookup k (d₁ ++ d₂) =
      match alookup k d₁ with
      | some v => some v
      | none => alookup k d₂ := by
  induction d₁ with
  | nil => simp [alookup]
  | cons p ps ih =>
    by_cases h : p.1 = k <;> simp [alookup, h, ih]

theorem sum_map_filter_split (l : List SLOResult)
    (f : SLOResult → Int) (p : SLOResult → Bool) :
    (l.map f).sum =
      ((l.filter p).map f).sum + ((l.filter fun x => !p x).map f).sum := by
  induction l with
  | nil => simp
  | cons x xs ih =>
    by_cases h : p x = true <;> simp [List.filter_cons, h, ih] <;> ring

theorem length_filter_split (l : List SLOResult) (p : SLOResult → Bool) :
    (l.filter p).length + (l.filter fun x => !p x).length = l.length := by
  induction l with
  | nil => simp
  | cons x xs ih =>
    by_cases h : p x = true <;> simp [List.filter_cons, h] <;> omega

/-! ## C2: unevaluated SLOs are excluded -/

/-- C2: for every definitions map, evaluation-results map and health-check
map, an SLO name present in the definitions but absent from the evaluation
results contributes nothing to the outcome: dropping such a definition
entry (wherever it sits) leaves score and breakdown — hence
`total_points`, `points_lost`, `passed` and `failed` — unchanged; an
unevaluated SLO is excluded, never treated as failed. -/
theorem c2_unevaluated_slo_excluded (l1 l2 : List (String × SloDef))
    (d : SloDef) (res hcs : List (String × Bool)) (n : String)
    (h : alookup n res = none) :
    calculate_resiliency_score (l1 ++ (n, d) :: l2) res hcs =
      calculate_resiliency_score (l1 ++ l2) res hcs := by
  unfold calculate_resiliency_score sloObjects sloObjectsOfDefs
  simp only [List.filterMap_append, List.filterMap_cons, h]

/-- C2 witness: concrete instance with the hypothesis discharged. -/
theorem c2_unevaluated_slo_excluded_witness :
    alookup "a" ([("b", true)] : List (String × Bool)) = none ∧
    calculate_resiliency_score
        ([] ++ ("a", .sev "critical") :: [("b", .sev "warning")])
        [("b", true)] [] =
      calculate_resiliency_score ([] ++ [("b", .sev "warning")])
        [("b", true)] [] :=
  ⟨by decide,
    c2_unevaluated_slo_excluded [] [("b", .sev "warning")] (.sev "critical")
      [("b", true)] [] "a" (by decide)⟩

/-! ## C4: health checks are always critical with the default weight -/

theorem healthObjects_weight (hcs : List (String × Bool)) :
    ((healthObjects hcs).map fun s => s.weight DEFAULT_WEIGHTS).sum =
      3 * hcs.length := by
  induction hcs with
  | nil => rfl
  | cons p ps ih =>
    simp [healthObjects, SLOResult.weight, DEFAULT_WEIGHTS, alookup] at *
    omega

/-- C4: every SLOResult built from a health-check entry carries severity
`"critical"`, no custom weight, and resolves to the critical default weight
3; consequently the health-check entries contribute exactly `3 * |H|` to
`total_points` and `3 * |failed H|` to `points_lost`, independent of any
other data supplied with them — custom weights are never honored for
health checks. -/
theorem c4_health_checks_critical (defs : List (String × SloDef))
    (res hcs : List (String × Bool)) :
    (∀ x ∈ healthObjects hcs,
      x.severity = "critical" ∧ x.custom_weight = none ∧
        x.weight DEFAULT_WEIGHTS = 3) ∧
    (calculate_resiliency_score defs res hcs).2.total_points =
      (calculate_resiliency_score defs res []).2.total_points +
        3 * hcs.length ∧
    (calculate_resiliency_score defs res hcs).2.points_lost =
      (calculate_resiliency_score defs res []).2.points_lost +
        3 * (hcs.filter fun p => !p.2).length := by
  refine ⟨?_, ?_, ?_⟩
  · intro x hx
    simp only [healthObjects, List.mem_map] at hx
    obtain ⟨p, -, rfl⟩ := hx
    exact ⟨rfl, rfl, rfl⟩
  · simp only [calculate_resiliency_score, sloObjects, healthObjects,
      List.map_append, List.sum_append]
    rw [← healthObjects_weight hcs]
    simp [healthObjects]
  · simp only [calculate_resiliency_score, sloObjects, healthObjects,
      List.filter_append, List.map_append, List.sum_append]
    rw [← healthObjects_weight (hcs.filter fun p => !p.2)]
    simp [healthObjects, List.filter_map, Function.comp_def]

/-- C4 witness: a failed health check contributes 3 to both totals even
though its companion definitions carry custom weights. -/
theorem c4_health_checks_critical_witness :
    (⟨"hc", "critical", false, none⟩ : SLOResult) ∈ healthObjects [("hc", false)] ∧
    (⟨"hc", "critical", false, none⟩ : SLOResult).severity = "critical" ∧
    (⟨"hc", "critical", false, none⟩ : SLOResult).weight DEFAULT_WEIGHTS = 3 :=
  ⟨by decide,
    ((c4_health_checks_critical [("a", .record (some "warning") (some 7))]
      [("a", true)] [("hc", false)]).1 _ (by decide)).1,
    ((c4_health_checks_critical [("a", .record (some "warning") (some 7))]
      [("a", true)] [("hc", false)]).1 _ (by decide)).2.2⟩

/-! ## C8: summary access before finalize -/

/-- C8: reading `summary` or `detailed_report` on a freshly constructed
aggregator (no scenario added, `finalize_report` never called) does not
raise the documented lifecycle error: `__init__` assigns both attributes
the value `None`, so the `hasattr` guard in `get_summary` /
`get_detailed_report` is always satisfied and the call returns the value
`None` instead of raising `RuntimeError`. -/
theorem c8_summary_access_before_finalize (slos : List Slo) :
    get_summary (Resiliency.init slos) = .ok none ∧
    get_detailed_report (Resiliency.init slos) = .ok none :=
  ⟨rfl, rfl⟩

/-! ## C7: breakdown invariants -/

theorem default_weight_nonneg (nm sev : String) (b : Bool) :
    0 ≤ (SLOResult.mk nm sev b none).weight DEFAULT_WEIGHTS := by
  by_cases h1 : sev = "critical"
  · subst h1
    have h3 : (SLOResult.mk nm "critical" b none).weight DEFAULT_WEIGHTS = 3 := rfl
    rw [h3]; norm_num
  · by_cases h2 : sev = "warning"
    · subst h2
      have h3 : (SLOResult.mk nm "warning" b none).weight DEFAULT_WEIGHTS = 1 := rfl
      rw [h3]; norm_num
    · have h1' : ¬ ("critical" = sev) := fun hh => h1 hh.symm
      have h2' : ¬ ("warning" = sev) := fun hh => h2 hh.symm
      simp only [SLOResult.weight, DEFAULT_WEIGHTS, alookup, h1', h2',
        if_false, if_neg]
      decide

theorem sloObjectsOfDefs_weight_nonneg (defs : List (String × SloDef))
    (res : List (String × Bool))
    (h : ∀ p ∈ defs, ∀ w, p.2.weightOf = some w → 0 ≤ w) :
    ∀ x ∈ sloObjectsOfDefs defs res, 0 ≤ x.weight DEFAULT_WEIGHTS := by
  induction defs with
  | nil => intro x hx; simp [sloObjectsOfDefs] at hx
  | cons p ps ih =>
    intro x hx
    have htail : ∀ q ∈ ps, ∀ w, q.2.weightOf = some w → 0 ≤ w :=
      fun q hq => h q (List.mem_cons_of_mem p hq)
    rcases hr : alookup p.1 res with - | b
    · simp only [sloObjectsOfDefs, List.filterMap_cons, hr] at hx
      exact ih htail x hx
    · simp only [sloObjectsOfDefs, List.filterMap_cons, hr] at hx
      rcases List.mem_cons.1 hx with rfl | hx
      · rcases hw : p.2.weightOf with - | w
        · have := default_weight_nonneg p.1 p.2.severityOf b
          simpa [SLOResult.weight, hw] using this
        · have := h p (List.mem_cons_self p ps) w hw
          simpa [SLOResult.weight, hw] using this
      · exact ih htail x hx

theorem sloObjects_weight_nonneg (defs : List (String × SloDef))
    (res hcs : List (String × Bool))
    (h : ∀ p ∈ defs, ∀ w, p.2.weightOf = some w → 0 ≤ w) :
    ∀ x ∈ sloObjects defs res hcs, 0 ≤ x.weight DEFAULT_WEIGHTS := by
  intro x hx
  rcases List.mem_append.1 hx with hx | hx
  · exact sloObjectsOfDefs_weight_nonneg defs res h x hx
  · simp only [healthObjects, List.mem_map] at hx
    obtain ⟨p, -, rfl⟩ := hx
    have h3 : (SLOResult.mk p.1 "critical" p.2 none).weight DEFAULT_WEIGHTS = 3 := rfl
    rw [h3]; norm_num

/-- C7 counterexample: the claimed invariant `total_points ≥ points_lost ≥ 0`
fails as soon as a record carries a negative custom weight (which the
source accepts with no validation): a single failed SLO of weight `-5`
yields `total_points = points_lost = -5`. -/
theorem c7_counterexample :
    ¬ (0 ≤ (calculate_resiliency_score
        [("a", .record (some "critical") (some (-5)))]
        [("a", false)] []).2.points_lost) := by decide

/-- C7 (amended): every breakdown satisfies
`passed + failed = |included SLOResults|` unconditionally — for every
input, including records carrying custom weights of any sign; and whenever
every custom weight present on the definitions is nonnegative (the default
weights 3 and 1 and the health-check weight 3 always are), also
`total_points ≥ points_lost ≥ 0`.  With a negative custom weight — taken
unconditionally with no validation or lower bound — `points_lost ≥ 0`
(and `total_points ≥ points_lost`) can fail. -/
theorem c7_amended (defs : List (String × SloDef))
    (res hcs : List (String × Bool)) :
    ((calculate_resiliency_score defs res hcs).2.passed +
      (calculate_resiliency_score defs res hcs).2.failed =
      (sloObjects defs res hcs).length) ∧
    ((∀ p ∈ defs, ∀ w, p.2.weightOf = some w → 0 ≤ w) →
      (calculate_resiliency_score defs res hcs).2.points_lost ≤
        (calculate_resiliency_score defs res hcs).2.total_points ∧
      0 ≤ (calculate_resiliency_score defs res hcs).2.points_lost) := by
  simp only [calculate_resiliency_score]
  refine ⟨length_filter_split _ _, ?_⟩
  intro h
  have hw := sloObjects_weight_nonneg defs res hcs h
  constructor
  · rw [sum_map_filter_split (sloObjects defs res hcs)
      (fun s => s.weight DEFAULT_WEIGHTS) (fun s => s.passed)]
    have : 0 ≤ (((sloObjects defs res hcs).filter fun s => s.passed).map
        fun s => s.weight DEFAULT_WEIGHTS).sum := by
      refine List.sum_nonneg ?_
      intro y hy
      simp only [List.mem_map] at hy
      obtain ⟨x, hx, rfl⟩ := hy
      exact hw x (List.mem_of_mem_filter hx)
    omega
  · refine List.sum_nonneg ?_
    intro y hy
    simp only [List.mem_map] at hy
    obtain ⟨x, hx, rfl⟩ := hy
    exact hw x (List.mem_of_mem_filter hx)

/-- C7 witness: concrete instance (one passed critical SLO with a custom
weight, one failed health check) with the hypothesis discharged. -/
theorem c7_amended_witness :
    ((calculate_resiliency_score [("a", .record (some "critical") (some 2))]
        [("a", true)] [("hc", false)]).2.passed +
      (calculate_resiliency_score [("a", .record (some "critical") (some 2))]
        [("a", true)] [("hc", false)]).2.failed =
      (sloObjects [("a", .record (some "critical") (some 2))]
        [("a", true)] [("hc", false)]).length) ∧
    (∀ p ∈ ([("a", .record (some "critical") (some 2))] :
        List (String × SloDef)), ∀ w, p.2.weightOf = some w → 0 ≤ w) ∧
    (calculate_resiliency_score [("a", .record (some "critical") (some 2))]
        [("a", true)] [("hc", false)]).2.points_lost ≤
      (calculate_resiliency_score [("a", .record (some "critical") (some 2))]
        [("a", true)] [("hc", false)]).2.total_points :=
  ⟨(c7_amended [("a", .record (some "critical") (some 2))]
      [("a", true)] [("hc", false)]).1,
    by decide,
    ((c7_amended [("a", .record (some "critical") (some 2))]
      [("a", true)] [("hc", false)]).2 (by decide)).1⟩

/-! ## C10: duplicate-named records and the name-keyed dict -/

theorem alookup_map_overwrite {α : Type} (d : List (String × α))
    (k k' : String) (v : α) :
    alookup k' (d.map fun p => if p.1 = k then (k, v) else p) =
      if k = k' then (alookup k d).map (fun _ => v) else alookup k' d := by
  induction d with
  | nil => by_cases hkk : k = k' <;> simp [alookup, hkk]
  | cons p ps ih =>
    by_cases hp : p.1 = k
    · subst hp
      by_cases hkk : p.1 = k'
      · subst hkk; simp [alookup, ih]
      · simp [alookup, hkk, ih, fun hh : k' = p.1 => hkk hh.symm]
    · by_cases hpk : p.1 = k'
      · subst hpk
        have hne : ¬ k = p.1 := fun hkp => hp hkp.symm
        simp [alookup, hp, hne]
      · simp [alookup, hp, hpk, ih]

theorem alookup_dictInsert {α : Type} (d : List (String × α))
    (k k' : String) (v : α) :
    alookup k' (dictInsert d k v) =
      if k = k' then some v else alookup k' d := by
  unfold dictInsert
  by_cases hs : (alookup k d).isSome
  · rw [if_pos hs, alookup_map_overwrite]
    rcases hv : alookup k d with - | w
    · rw [hv] at hs; simp at hs
    · simp [hv]
  · rw [if_neg hs, alookup_append]
    by_cases hkk : k = k'
    · subst hkk
      rcases hv : alookup k d with - | w
      · simp [hv, alookup]
      · rw [hv] at hs; simp at hs
    · rcases hv : alookup k' d with - | w <;>
        simp [hv, alookup, hkk, fun hh : k' = k => hkk hh.symm]

theorem keys_dictInsert {α : Type} (d : List (String × α)) (k : String) (v : α) :
    (dictInsert d k v).map Prod.fst =
      if (alookup k d).isSome then d.map Prod.fst
      else d.map Prod.fst ++ [k] := by
  unfold dictInsert
  by_cases hs : (alookup k d).isSome
  · rw [if_pos hs, if_pos hs, List.map_map]
    refine List.map_congr_left ?_
    intro p _
    by_cases hpk : p.1 = k <;> simp [hpk, Function.comp]
  · rw [if_neg hs, if_neg hs, List.map_append]
    rfl

theorem nodup_keys_dictInsert {α : Type} (d : List (String × α))
    (k : String) (v : α) (h : (d.map Prod.fst).Nodup) :
    ((dictInsert d k v).map Prod.fst).Nodup := by
  rw [keys_dictInsert]
  by_cases hs : (alookup k d).isSome
  · rwa [if_pos hs]
  · rw [if_neg hs]
    have hk : k ∉ d.map Prod.fst := by
      rw [← alookup_eq_none_iff]
      rcases hv : alookup k d with - | w
      · rfl
      · rw [hv] at hs; simp at hs
    simp [List.nodup_append, h, hk]

theorem alookup_foldl_dictInsert {α : Type} (l d : List (String × α))
    (k : String) :
    alookup k (l.foldl (fun d p => dictInsert d p.1 p.2) d) =
      match alookup k l.reverse with
      | some v => some v
      | none => alookup k d := by
  induction l generalizing d with
  | nil => simp [alookup]
  | cons p ps ih =>
    simp only [List.foldl_cons, List.reverse_cons]
    rw [ih, alookup_append]
    rcases hr : alookup k ps.reverse with - | w
    · rw [alookup_dictInsert]
      by_cases hpk : p.1 = k <;> simp [alookup, hpk]
    · rfl

theorem alookup_dictOfList {α : Type} (l : List (String × α)) (k : String) :
    alookup k (dictOfList l) = alookup k l.reverse := by
  unfold dictOfList
  rw [alookup_foldl_dictInsert]
  rcases hr : alookup k l.reverse with - | w <;> simp [alookup]

theorem nodup_keys_dictOfList {α : Type} (l : List (String × α)) :
    ((dictOfList l).map Prod.fst).Nodup := by
  unfold dictOfList
  have main : ∀ (xs d : List (String × α)), (d.map Prod.fst).Nodup →
      ((xs.foldl (fun d p => dictInsert d p.1 p.2) d).map Prod.fst).Nodup := by
    intro xs
    induction xs with
    | nil => intro d hd; simpa using hd
    | cons p ps ih =>
      intro d hd
      exact ih (dictInsert d p.1 p.2) (nodup_keys_dictInsert d p.1 p.2 hd)
  exact main l [] (by simp)

theorem alookup_map_name {β : Type} (l : List Slo) (g : Slo → β) (n : String) :
    alookup n (l.map fun r => (r.name, g r)) =
      (l.find? fun r => r.name == n).map g := by
  induction l with
  | nil => simp [alookup]
  | cons r rs ih =>
    by_cases h : r.name = n
    · have hb : (r.name == n) = true := by simp [h]
      simp [alookup, List.find?, h, hb, ih]
    · have hb : (r.name == n) = false := by simp [h]
      simp [alookup, List.find?, h, hb, ih]

theorem sloObjects_names_sublist (defs : List (String × SloDef))
    (res : List (String × Bool)) :
    ((sloObjectsOfDefs defs res).map fun x => x.name).Sublist
      (defs.map Prod.fst) := by
  induction defs with
  | nil => simp [sloObjectsOfDefs]
  | cons p ps ih =>
    rcases hr : alookup p.1 res with - | b
    · simp only [sloObjectsOfDefs, List.filterMap_cons, hr, List.map_cons]
      exact (ih).cons p.1
    · simp only [sloObjectsOfDefs, List.filterMap_cons, hr, List.map_cons]
      exact (ih).cons₂ p.1

/-- C10: the orchestrator keys its definitions dict by SLO name
(`{slo["name"]: ... for slo in self._slos}`), so (i) the definition used
for a name is the one of the *last* loaded record with that name, (ii) the
dict's keys are free of duplicates, and (iii) a name yields at most one
definition-derived `SLOResult` per window evaluation — duplicate-named
records never count twice. -/
theorem c10_duplicate_names_last_wins (slos : List Slo)
    (res : List (String × Bool)) (n : String) :
    alookup n (sloDefsOf slos) =
      ((slos.reverse.find? fun r => r.name == n).map
        fun r => SloDef.record (some r.severity) r.weight) ∧
    ((sloDefsOf slos).map Prod.fst).Nodup ∧
    ((sloObjectsOfDefs (sloDefsOf slos) res).map fun x => x.name).Nodup := by
  refine ⟨?_, nodup_keys_dictOfList _, ?_⟩
  · rw [sloDefsOf, alookup_dictOfList, ← List.map_reverse, alookup_map_name]
  · have h1 := nodup_keys_dictOfList
      (slos.map fun r => (r.name, SloDef.record (some r.severity) r.weight))
    rw [sloDefsOf]
    exact h1.sublist (sloObjects_names_sublist _ res)

/-! ## C6: the definition loader -/

theorem normLoop_characterization (xs : List YVal) (idx : Nat) :
    normLoop idx xs =
      ((xs.enumFrom idx).filterMap fun p => norm1 p.1 p.2,
       (xs.enumFrom idx).filterMap fun p =>
         if (norm1 p.1 p.2).isNone then some (skipWarning p.1) else none) := by
  induction xs generalizing idx with
  | nil => rfl
  | cons a rest ih =>
    simp only [normLoop, List.enumFrom, List.filterMap_cons, ih]
    rcases h : norm1 idx a with - | slo <;> simp [h]

/-- C6: the definition loader (i) fails with a configuration error
(`ValueError`) for every top-level value that is not a sequence; (ii) on a
sequence it returns exactly the per-entry normalizations in input order
together with one warning per skipped entry (so a bad entry is non-fatal
and loading continues); (iii) every entry that is not a mapping or lacks
both `expr` and `severity` is skipped. -/
theorem c6_definition_loader :
    (∀ raw : YVal, raw.isList = false → (_normalise_alerts raw).isOk = false) ∧
    (∀ xs : List YVal,
      _normalise_alerts (.list xs) =
        .ok ((xs.enum.filterMap fun p => norm1 p.1 p.2),
          (xs.enum.filterMap fun p =>
            if (norm1 p.1 p.2).isNone then some (skipWarning p.1) else none))) ∧
    (∀ (i : Nat) (a : YVal), entryLacksBoth a = true → norm1 i a = none) := by
  refine ⟨?_, ?_, ?_⟩
  · intro raw h
    cases raw <;> simp_all [YVal.isList, _normalise_alerts, Except.isOk, Except.toBool]
  · intro xs
    simp [_normalise_alerts, List.enum, normLoop_characterization]
  · intro i a h
    cases a <;> simp_all [entryLacksBoth, norm1]

/-- C6 witness: concrete instances discharging each hypothesis. -/
theorem c6_definition_loader_witness :
    (YVal.int 3).isList = false ∧ (_normalise_alerts (.int 3)).isOk = false ∧
    entryLacksBoth (.str "oops") = true ∧ norm1 0 (.str "oops") = none ∧
    entryLacksBoth (.dict [("description", .str "d")]) = true ∧
    norm1 1 (.dict [("description", .str "d")]) = none :=
  ⟨rfl, c6_definition_loader.1 (.int 3) rfl,
    rfl, c6_definition_loader.2.2 0 (.str "oops") rfl,
    rfl, c6_definition_loader.2.2 1 (.dict [("description", .str "d")]) rfl⟩

/-! ## C5: batch processing tolerates per-item failures -/

theorem addReportsLoop_spec (oracle : Nat → Except String (List (String × Bool)))
    (stype : String) (bs be w : Int) :
    ∀ (items : List TelItem) (s : Resiliency) (i0 : Nat),
      (addReportsLoop oracle stype bs be w s i0 items).2.1.length =
        items.length ∧
      ∀ j, j < items.length →
        ((oracle (i0 + j)).isOk = true →
          (((addReportsLoop oracle stype bs be w s i0 items).2.1.getD j
            defItem).resiliency_report).isSome = true) ∧
        ((oracle (i0 + j)).isOk = false →
          (addReportsLoop oracle stype bs be w s i0 items).2.1.getD j defItem =
            items.getD j defItem) := by
  intro items
  induction items with
  | nil =>
    intro s i0
    exact ⟨rfl, fun j hj => absurd hj (Nat.not_lt_zero j)⟩
  | cons tel rest ih =>
    intro s i0
    rcases ho : oracle i0 with e | res
    · simp only [addReportsLoop, add_scenario_report, ho]
      refine ⟨by simpa using (ih s (i0 + 1)).1, ?_⟩
      intro j hj
      cases j with
      | zero =>
        constructor
        · intro hok
          rw [Nat.add_zero, ho] at hok
          simp [Except.isOk, Except.toBool] at hok
        · intro _
          simp
      | succ j' =>
        have hshift : i0 + (j' + 1) = (i0 + 1) + j' := by omega
        have hrest := (ih s (i0 + 1)).2 j' (by simpa using hj)
        constructor
        · intro hok
          rw [hshift] at hok
          simpa using hrest.1 hok
        · intro hbad
          rw [hshift] at hbad
          simpa using hrest.2 hbad
    · simp only [addReportsLoop, add_scenario_report, ho]
      refine ⟨by simpa using (ih _ (i0 + 1)).1, ?_⟩
      intro j hj
      cases j with
      | zero =>
        constructor
        · intro _; simp
        · intro hbad
          rw [Nat.add_zero, ho] at hbad
          simp [Except.isOk, Except.toBool] at hbad
      | succ j' =>
        have hshift : i0 + (j' + 1) = (i0 + 1) + j' := by omega
        constructor
        · intro hok
          rw [hshift] at hok
          simpa using ((ih _ (i0 + 1)).2 j' (by simpa using hj)).1 hok
        · intro hbad
          rw [hshift] at hbad
          simpa using ((ih _ (i0 + 1)).2 j' (by simpa using hj)).2 hbad

/-- C5: for every batch, `add_scenario_reports` is a total function (the
per-item body is wrapped in `try`/`except Exception`, modelled by the loop
catching every raised `Except.error`), the output item list keeps its
length (no abort), every item whose evaluation raises is logged and left
untouched while processing continues, and every item whose evaluation
succeeds receives an attached compact breakdown — even when a sibling item
failed. -/
theorem c5_batch_fault_tolerance (s : Resiliency) (items : List TelItem)
    (oracle : Nat → Except String (List (String × Bool)))
    (stype : String) (bs be w : Int) :
    (add_scenario_reports s items oracle stype bs be w).2.1.length =
      items.length ∧
    ∀ j, j < items.length →
      ((oracle j).isOk = true →
        (((add_scenario_reports s items oracle stype bs be w).2.1.getD j
          defItem).resiliency_report).isSome = true) ∧
      ((oracle j).isOk = false →
        (add_scenario_reports s items oracle stype bs be w).2.1.getD j
          defItem = items.getD j defItem) := by
  have h := addReportsLoop_spec oracle stype bs be w items s 0
  simpa [add_scenario_reports] using h

/-- C5 witness: three batch items where the second evaluation raises — the
first and third items still receive an attached compact breakdown and the
second is left untouched. -/
theorem c5_batch_fault_tolerance_witness :
    ((((add_scenario_reports (Resiliency.init []) [defItem, defItem, defItem]
      (fun i => if i = 1 then .error "boom" else .ok []) "t" 0 1 1).2.1.getD 0
        defItem).resiliency_report).isSome = true) ∧
    ((((add_scenario_reports (Resiliency.init []) [defItem, defItem, defItem]
      (fun i => if i = 1 then .error "boom" else .ok []) "t" 0 1 1).2.1.getD 2
        defItem).resiliency_report).isSome = true) ∧
    ((add_scenario_reports (Resiliency.init []) [defItem, defItem, defItem]
      (fun i => if i = 1 then .error "boom" else .ok []) "t" 0 1 1).2.1.getD 1
        defItem = [defItem, defItem, defItem].getD 1 defItem) :=
  ⟨((c5_batch_fault_tolerance (Resiliency.init []) [defItem, defItem, defItem]
      (fun i => if i = 1 then .error "boom" else .ok []) "t" 0 1 1).2 0
      (by decide)).1 (by decide),
    ((c5_batch_fault_tolerance (Resiliency.init []) [defItem, defItem, defItem]
      (fun i => if i = 1 then .error "boom" else .ok []) "t" 0 1 1).2 2
      (by decide)).1 (by decide),
    ((c5_batch_fault_tolerance (Resiliency.init []) [defItem, defItem, defItem]
      (fun i => if i = 1 then .error "boom" else .ok []) "t" 0 1 1).2 1
      (by decide)).2 (by decide)⟩

/-! ## Correctness of the binary64 emulation -/

theorem log2fuel_spec : ∀ fuel n : Nat, 1 ≤ n → n ≤ fuel →
    2 ^ log2fuel fuel n ≤ n ∧ n < 2 ^ (log2fuel fuel n + 1) := by
  intro fuel
  induction fuel with
  | zero => intro n h1 h2; omega
  | succ f ih =>
    intro n h1 h2
    by_cases hn : n ≤ 1
    · have hone : n = 1 := by omega
      subst hone
      simp [log2fuel]
    · rw [log2fuel, if_neg hn]
      have hrec := ih (n / 2) (by omega) (by omega)
      set k := log2fuel f (n / 2) with hk
      have hp1 : (2 : Nat) ^ (k + 1) = 2 ^ k * 2 := pow_succ 2 k
      have hp2 : (2 : Nat) ^ (k + 1 + 1) = 2 ^ (k + 1) * 2 := pow_succ 2 (k + 1)
      omega

theorem natLog2_spec (n : Nat) (h : 1 ≤ n) :
    2 ^ natLog2 n ≤ n ∧ n < 2 ^ (natLog2 n + 1) :=
  log2fuel_spec n n h le_rfl

theorem two_zpow_pos (e : Int) : (0 : ℚ) < 2 ^ e := zpow_pos (by norm_num) e

theorem two_zpow_toNat (k : Int) (h : 0 ≤ k) :
    (2 : ℚ) ^ k = ((2 ^ k.toNat : ℕ) : ℚ) := by
  push_cast
  rw [← zpow_natCast (2 : ℚ) k.toNat, Int.toNat_of_nonneg h]

theorem fexp_spec (a b : ℕ) (ha : 1 ≤ a) (hb : 1 ≤ b) :
    (2 : ℚ) ^ (fexp a b) ≤ (a : ℚ) / b ∧ (a : ℚ) / b < 2 ^ (fexp a b + 1) := by
  have hb0 : (0 : ℚ) < b := by exact_mod_cast hb
  have ha0 : (0 : ℚ) < a := by exact_mod_cast ha
  obtain ⟨hA1, hA2⟩ := natLog2_spec a ha
  obtain ⟨hB1, hB2⟩ := natLog2_spec b hb
  set la := natLog2 a with hla
  set lb := natLog2 b with hlb
  have hA1' : (2 : ℚ) ^ ((la : ℤ)) ≤ (a : ℚ) := by
    rw [two_zpow_toNat _ (by positivity)]
    simp only [Int.toNat_natCast]
    exact_mod_cast hA1
  have hA2' : (a : ℚ) < 2 ^ ((la : ℤ) + 1) := by
    rw [show ((la : ℤ) + 1) = ((la + 1 : ℕ) : ℤ) by push_cast; ring,
      two_zpow_toNat _ (by positivity)]
    simp only [Int.toNat_natCast]
    exact_mod_cast hA2
  have hB1' : (2 : ℚ) ^ ((lb : ℤ)) ≤ (b : ℚ) := by
    rw [two_zpow_toNat _ (by positivity)]
    simp only [Int.toNat_natCast]
    exact_mod_cast hB1
  have hB2' : (b : ℚ) < 2 ^ ((lb : ℤ) + 1) := by
    rw [show ((lb : ℤ) + 1) = ((lb + 1 : ℕ) : ℤ) by push_cast; ring,
      two_zpow_toNat _ (by positivity)]
    simp only [Int.toNat_natCast]
    exact_mod_cast hB2
  set e0 : ℤ := (la : ℤ) - (lb : ℤ) with he0
  have hlow : (2 : ℚ) ^ (e0 - 1) < (a : ℚ) / b := by
    rw [lt_div_iff₀ hb0]
    calc (2 : ℚ) ^ (e0 - 1) * b < 2 ^ (e0 - 1) * 2 ^ ((lb : ℤ) + 1) := by
          exact mul_lt_mul_of_pos_left hB2' (two_zpow_pos _)
    _ = 2 ^ ((la : ℤ)) := by
          rw [← zpow_add₀ (by norm_num : (2:ℚ) ≠ 0)]
          congr 1
          omega
    _ ≤ a := hA1'
  have hhigh : (a : ℚ) / b < 2 ^ (e0 + 1) := by
    rw [div_lt_iff₀ hb0]
    calc (a : ℚ) < 2 ^ ((la : ℤ) + 1) := hA2'
    _ = 2 ^ (e0 + 1) * 2 ^ ((lb : ℤ)) := by
          rw [← zpow_add₀ (by norm_num : (2:ℚ) ≠ 0)]
          congr 1
          omega
    _ ≤ 2 ^ (e0 + 1) * b := by
          exact mul_le_mul_of_nonneg_left hB1' (le_of_lt (two_zpow_pos _))
  have hfe : fexp a b =
      if decide ((a : ℚ) / b < 2 ^ e0) = true then e0 - 1 else e0 := by
    rw [show fexp a b = (if (if 0 ≤ e0 then decide (a < b * 2 ^ e0.toNat)
        else decide (a * 2 ^ (-e0).toNat < b)) = true then e0 - 1 else e0)
      from rfl]
    congr 1
    by_cases hsgn : 0 ≤ e0
    · rw [if_pos hsgn]
      congr 1
      rw [decide_eq_decide]
      constructor
      · intro hlt
        rw [div_lt_iff₀ hb0, mul_comm, two_zpow_toNat _ hsgn]
        exact_mod_cast hlt
      · intro hlt
        rw [div_lt_iff₀ hb0, mul_comm, two_zpow_toNat _ hsgn] at hlt
        exact_mod_cast hlt
    · rw [if_neg hsgn]
      congr 1
      rw [decide_eq_decide]
      have hneg : (0 : ℤ) ≤ -e0 := by omega
      constructor
      · intro hlt
        have h2 : (a : ℚ) * 2 ^ (-e0) < b := by
          rw [two_zpow_toNat _ hneg]
          exact_mod_cast hlt
        rw [div_lt_iff₀ hb0]
        calc (a : ℚ) = a * 2 ^ (-e0) * 2 ^ e0 := by
              rw [mul_assoc, ← zpow_add₀ (by norm_num : (2:ℚ) ≠ 0)]
              simp
        _ < (b : ℚ) * 2 ^ e0 := mul_lt_mul_of_pos_right h2 (two_zpow_pos e0)
        _ = 2 ^ e0 * b := mul_comm _ _
      · intro hlt
        have h2 : (a : ℚ) * 2 ^ (-e0) < b := by
          have hstep := mul_lt_mul_of_pos_right
            ((div_lt_iff₀ hb0).mp hlt) (two_zpow_pos (-e0))
          calc (a : ℚ) * 2 ^ (-e0) < 2 ^ e0 * b * 2 ^ (-e0) := hstep
          _ = b := by
              rw [mul_comm ((2:ℚ) ^ e0) (b : ℚ), mul_assoc,
                ← zpow_add₀ (by norm_num : (2:ℚ) ≠ 0)]
              simp
        rw [two_zpow_toNat _ hneg] at h2
        exact_mod_cast h2
  by_cases hq : (a : ℚ) / b < 2 ^ e0
  · rw [hfe, if_pos (by simpa using hq)]
    have he : e0 - 1 + 1 = e0 := by ring
    refine ⟨le_of_lt hlow, ?_⟩
    rw [he]
    exact hq
  · rw [hfe, if_neg (by simpa using hq)]
    exact ⟨le_of_not_lt hq, hhigh⟩

theorem fexp_le_of_lt (a b : ℕ) (ha : 1 ≤ a) (hb : 1 ≤ b) (c : ℤ)
    (h : (a : ℚ) / b < 2 ^ (c + 1)) : fexp a b ≤ c := by
  have hlow := (fexp_spec a b ha hb).1
  have : (2 : ℚ) ^ (fexp a b) < 2 ^ (c + 1) := lt_of_le_of_lt hlow h
  have := (zpow_lt_zpow_iff_right₀ (by norm_num : (1:ℚ) < 2)).mp this
  omega

theorem rnheDiv_err (x y : ℕ) (hy : 1 ≤ y) :
    |((rnheDiv x y : ℕ) : ℚ) - (x : ℚ) / y| ≤ 1 / 2 := by
  have hy0 : (0 : ℚ) < y := by exact_mod_cast hy
  have hx : y * (x / y) + (x % y) = x := Nat.div_add_mod x y
  have hrltn : x % y < y := Nat.mod_lt x (by omega)
  set q := x / y with hqdef
  set r := x % y with hrdef
  have hsplit : (x : ℚ) / y = (q : ℚ) + (r : ℚ) / y := by
    have hxq : (y : ℚ) * q + r = x := by exact_mod_cast hx
    rw [← hxq]
    field_simp
    ring
  have hr0 : (0 : ℚ) ≤ (r : ℚ) / y := by positivity
  have hrlt1 : (r : ℚ) / y < 1 := by
    rw [div_lt_one hy0]
    exact_mod_cast hrltn
  unfold rnheDiv
  rw [← hqdef, ← hrdef]
  by_cases h1 : 2 * r < y
  · rw [if_pos h1]
    have h1' : (2 : ℚ) * r ≤ y := by exact_mod_cast le_of_lt h1
    have hhalf : (r : ℚ) / y ≤ 1 / 2 := by
      rw [div_le_div_iff₀ hy0 (by norm_num)]
      linarith
    rw [hsplit, abs_le]
    constructor <;> linarith
  · rw [if_neg h1]
    by_cases h2 : y < 2 * r
    · rw [if_pos h2]
      have h2' : (y : ℚ) ≤ 2 * r := by exact_mod_cast le_of_lt h2
      have hhalf : 1 / 2 ≤ (r : ℚ) / y := by
        rw [div_le_div_iff₀ (by norm_num) hy0]
        linarith
      rw [hsplit]
      push_cast
      rw [abs_le]
      constructor <;> linarith
    · have heq : (2 : ℚ) * r = y := by exact_mod_cast (by omega : 2 * r = y)
      have hhalf : (r : ℚ) / y = 1 / 2 := by
        rw [div_eq_div_iff (ne_of_gt hy0) (by norm_num : (2:ℚ) ≠ 0)]
        linarith
      by_cases h3 : q % 2 = 0 <;>
        [rw [if_neg h2, if_pos h3]; rw [if_neg h2, if_neg h3]] <;>
        · rw [hsplit]
          push_cast
          rw [abs_le]
          constructor <;> linarith

theorem rnheDiv_exact (x y : ℕ) (hy : 1 ≤ y) (hd : y ∣ x) :
    rnheDiv x y = x / y := by
  have hmod : x % y = 0 := Nat.mod_eq_zero_of_dvd hd
  unfold rnheDiv
  rw [hmod, if_pos (by omega : 2 * 0 < y)]

theorem flDiv_eq_branch (a b : ℕ) :
    flDiv a b =
      (if 0 ≤ 52 - fexp a b
        then rnheDiv (a * 2 ^ (52 - fexp a b).toNat) b
        else rnheDiv a (b * 2 ^ (-(52 - fexp a b)).toNat),
       fexp a b - 52) := rfl

theorem flDiv_err (a b : ℕ) (ha : 1 ≤ a) (hb : 1 ≤ b) :
    |dval (flDiv a b) - (a : ℚ) / b| ≤ 2 ^ (fexp a b - 53) := by
  have hb0 : (0 : ℚ) < b := by exact_mod_cast hb
  set e := fexp a b with he
  have hsplit : (2 : ℚ) ^ (e - 53) = 1 / 2 * 2 ^ (e - 52) := by
    rw [show e - 53 = (-1) + (e - 52) by ring, zpow_add₀ (by norm_num : (2:ℚ) ≠ 0)]
    norm_num
  by_cases ht : 0 ≤ 52 - e
  · rw [flDiv_eq_branch, ← he, if_pos ht]
    have herr := rnheDiv_err (a * 2 ^ (52 - e).toNat) b hb
    have hcast : ((a * 2 ^ (52 - e).toNat : ℕ) : ℚ) = a * 2 ^ ((52 : ℤ) - e) := by
      push_cast
      rw [← zpow_natCast (2 : ℚ) (52 - e).toNat, Int.toNat_of_nonneg ht]
    have hkey : dval (rnheDiv (a * 2 ^ (52 - e).toNat) b, e - 52) - (a : ℚ) / b =
        (((rnheDiv (a * 2 ^ (52 - e).toNat) b : ℕ) : ℚ) -
          ((a * 2 ^ (52 - e).toNat : ℕ) : ℚ) / b) * 2 ^ (e - 52) := by
      rw [dval, sub_mul, hcast]
      congr 1
      rw [div_mul_eq_mul_div, mul_assoc, ← zpow_add₀ (by norm_num : (2:ℚ) ≠ 0),
        show (52 : ℤ) - e + (e - 52) = 0 by ring, zpow_zero, mul_one]
    rw [hkey, abs_mul, abs_of_pos (two_zpow_pos (e - 52)), hsplit]
    exact mul_le_mul_of_nonneg_right herr (le_of_lt (two_zpow_pos (e - 52)))
  · rw [flDiv_eq_branch, ← he, if_neg ht]
    have hyb : 1 ≤ b * 2 ^ (-(52 - e)).toNat :=
      Nat.mul_pos (by omega) (Nat.two_pow_pos _)
    have herr := rnheDiv_err a (b * 2 ^ (-(52 - e)).toNat) hyb
    have hknn : (0 : ℤ) ≤ -(52 - e) := by omega
    have hcast : ((b * 2 ^ (-(52 - e)).toNat : ℕ) : ℚ) = b * 2 ^ (e - 52) := by
      push_cast
      rw [← zpow_natCast (2 : ℚ) (-(52 - e)).toNat, Int.toNat_of_nonneg hknn]
      norm_num
    have hkey : dval (rnheDiv a (b * 2 ^ (-(52 - e)).toNat), e - 52) - (a : ℚ) / b =
        (((rnheDiv a (b * 2 ^ (-(52 - e)).toNat) : ℕ) : ℚ) -
          (a : ℚ) / ((b * 2 ^ (-(52 - e)).toNat : ℕ) : ℚ)) * 2 ^ (e - 52) := by
      rw [dval, sub_mul, hcast]
      congr 1
      rw [div_mul_eq_mul_div,
        div_eq_div_iff (ne_of_gt hb0)
          (ne_of_gt (mul_pos hb0 (two_zpow_pos (e - 52))))]
      ring
    rw [hkey, abs_mul, abs_of_pos (two_zpow_pos (e - 52)), hsplit]
    exact mul_le_mul_of_nonneg_right herr (le_of_lt (two_zpow_pos (e - 52)))

theorem flDiv_exact (a b : ℕ) (hb : 1 ≤ b) (c : ℤ) (hc : c ≤ 52)
    (he : fexp a b ≤ c) (hd : b ∣ a * 2 ^ (52 - c).toNat) :
    dval (flDiv a b) = (a : ℚ) / b := by
  have hb0 : (0 : ℚ) < b := by exact_mod_cast hb
  set e := fexp a b with hedef
  have ht : 0 ≤ 52 - e := by omega
  have hdvd : b ∣ a * 2 ^ (52 - e).toNat := by
    refine dvd_trans hd (mul_dvd_mul_left a (pow_dvd_pow 2 ?_))
    omega
  rw [flDiv_eq_branch, ← hedef, if_pos ht, dval,
    rnheDiv_exact _ b hb hdvd]
  have hcast : ((a * 2 ^ (52 - e).toNat / b : ℕ) : ℚ) =
      ((a * 2 ^ (52 - e).toNat : ℕ) : ℚ) / b :=
    Nat.cast_div hdvd (ne_of_gt hb0)
  rw [hcast]
  push_cast
  rw [← zpow_natCast (2 : ℚ) (52 - e).toNat, Int.toNat_of_nonneg ht,
    div_mul_eq_mul_div, mul_assoc, ← zpow_add₀ (by norm_num : (2:ℚ) ≠ 0),
    show (52 : ℤ) - e + (e - 52) = 0 by ring, zpow_zero, mul_one]

theorem truncDyadic_floor (m : ℕ) (e : ℤ) :
    (truncDyadic m e : ℤ) = ⌊dval (m, e)⌋ := by
  unfold truncDyadic dval
  by_cases h : 0 ≤ e
  · rw [if_pos h]
    have hv : (m : ℚ) * 2 ^ e = ((m * 2 ^ e.toNat : ℕ) : ℚ) := by
      push_cast
      rw [← zpow_natCast (2 : ℚ) e.toNat, Int.toNat_of_nonneg h]
    rw [hv, Int.floor_natCast]
  · rw [if_neg h]
    have hke : ((-e).toNat : ℤ) = -e := Int.toNat_of_nonneg (by omega)
    have hv : (m : ℚ) * 2 ^ e = (m : ℚ) / ((2 ^ (-e).toNat : ℕ) : ℚ) := by
      push_cast
      rw [← zpow_natCast (2 : ℚ) (-e).toNat, hke, div_eq_mul_inv, ← zpow_neg,
        neg_neg]
    rw [hv, Rat.floor_natCast_div_natCast]
    rfl

theorem trunc_flDiv_eq_div (a b : ℕ) (hb : 1 ≤ b) (hblt : b < 2 ^ 45)
    (hab : a ≤ 100 * b) :
    (truncDyadic (flDiv a b).1 (flDiv a b).2 : ℤ) = ((a / b : ℕ) : ℤ) := by
  have hb0 : (0 : ℚ) < b := by exact_mod_cast hb
  rcases Nat.eq_zero_or_pos a with rfl | ha
  · have hm : (flDiv 0 b).1 = 0 := by
      rw [flDiv_eq_branch]
      by_cases ht : 0 ≤ 52 - fexp 0 b
      · rw [if_pos ht]
        unfold rnheDiv
        simp only [Nat.zero_mul, Nat.zero_div, Nat.zero_mod, Nat.mul_zero]
        rw [if_pos (by omega : 2 * 0 < b)]
      · rw [if_neg ht]
        unfold rnheDiv
        have hy : 1 ≤ b * 2 ^ (-(52 - fexp 0 b)).toNat :=
          Nat.mul_pos (by omega) (Nat.two_pow_pos _)
        simp only [Nat.zero_div, Nat.zero_mod, Nat.mul_zero]
        rw [if_pos (by omega : 2 * 0 < b * 2 ^ (-(52 - fexp 0 b)).toNat)]
    have he : (flDiv 0 b).2 = fexp 0 b - 52 := by rw [flDiv_eq_branch]
    rw [hm] at *
    unfold truncDyadic
    rcases le_or_lt 0 (flDiv 0 b).2 with h | h
    · rw [if_pos h]
      simp [Nat.zero_div]
    · rw [if_neg (not_le_of_lt h)]
      simp [Nat.zero_div]
  · have hq100 : (a : ℚ) / b ≤ 100 := by
      rw [div_le_iff₀ hb0]
      exact_mod_cast hab
    have hqlt : (a : ℚ) / b < 2 ^ ((6 : ℤ) + 1) := by
      have : ((2 : ℚ)) ^ ((6 : ℤ) + 1) = 128 := by norm_num
      rw [this]
      linarith
    have he6 : fexp a b ≤ 6 := fexp_le_of_lt a b ha hb 6 hqlt
    by_cases hdvd : b ∣ a
    · have hexact := flDiv_exact a b hb 6 (by norm_num) he6
        (dvd_mul_of_dvd_left hdvd _)
      have hcast : (a : ℚ) / b = ((a / b : ℕ) : ℚ) :=
        (Nat.cast_div hdvd (ne_of_gt hb0)).symm
      rw [show (truncDyadic (flDiv a b).1 (flDiv a b).2 : ℤ) =
          ⌊dval ((flDiv a b).1, (flDiv a b).2)⌋ from truncDyadic_floor _ _]
      rw [show ((flDiv a b).1, (flDiv a b).2) = flDiv a b from rfl, hexact,
        hcast, Int.floor_natCast]
    · have herr := flDiv_err a b ha hb
      have hbound : (2 : ℚ) ^ (fexp a b - 53) ≤ 2 ^ (-47 : ℤ) :=
        zpow_le_zpow_right₀ (by norm_num) (by omega)
      have hinvb : (2 : ℚ) ^ (-47 : ℤ) < 1 / b := by
        rw [zpow_neg, ← one_div]
        have hblt47 : (b : ℚ) < 2 ^ (47 : ℤ) := by
          have h1 : (b : ℚ) < ((2 ^ 45 : ℕ) : ℚ) := by exact_mod_cast hblt
          have h2 : ((2 ^ 45 : ℕ) : ℚ) ≤ 2 ^ (47 : ℤ) := by
            rw [two_zpow_toNat 47 (by norm_num)]
            exact_mod_cast Nat.pow_le_pow_right (by norm_num) (by norm_num)
          linarith
        rw [div_lt_div_iff (two_zpow_pos 47) hb0]
        calc (1 : ℚ) * b = b := one_mul _
        _ < 2 ^ (47 : ℤ) := hblt47
        _ = 1 * 2 ^ (47 : ℤ) := (one_mul _).symm
      -- margins: a/b is at distance ≥ 1/b from the two neighbouring integers
      have hx : b * (a / b) + (a % b) = a := Nat.div_add_mod a b
      have hrne : 1 ≤ a % b := by
        rcases Nat.eq_zero_or_pos (a % b) with hz | hp
        · exact absurd (Nat.dvd_of_mod_eq_zero hz) hdvd
        · exact hp
      have hrlt : a % b < b := Nat.mod_lt a (by omega)
      set q := a / b with hqdef
      set r := a % b with hrdef
      have hsplit : (a : ℚ) / b = (q : ℚ) + (r : ℚ) / b := by
        have hxq : (b : ℚ) * q + r = a := by exact_mod_cast hx
        rw [← hxq]
        field_simp
        ring
      have hr1 : 1 / (b : ℚ) ≤ (r : ℚ) / b := by
        gcongr
        exact_mod_cast hrne
      have hrb1 : (r : ℚ) / b ≤ 1 - 1 / b := by
        rw [div_le_iff₀ hb0, sub_mul, one_mul, div_mul_cancel₀ _ (ne_of_gt hb0)]
        have hrcast : (r : ℚ) ≤ (b : ℚ) - 1 := by
          have hn : r + 1 ≤ b := by omega
          have : ((r + 1 : ℕ) : ℚ) ≤ b := by exact_mod_cast hn
          push_cast at this
          linarith
        linarith
      have hlt : (2 : ℚ) ^ (fexp a b - 53) < 1 / b :=
        lt_of_le_of_lt hbound hinvb
      obtain ⟨hlo, hhi⟩ := abs_le.mp herr
      have hDlow : (q : ℚ) < dval (flDiv a b) := by
        linarith [hsplit, hr1]
      have hDhigh : dval (flDiv a b) < (q : ℚ) + 1 := by
        linarith [hsplit, hrb1]
      have hfloor : ⌊dval (flDiv a b)⌋ = ((q : ℕ) : ℤ) := by
        rw [Int.floor_eq_iff]
        constructor
        · push_cast
          linarith
        · push_cast
          linarith
      rw [show (truncDyadic (flDiv a b).1 (flDiv a b).2 : ℤ) =
          ⌊dval ((flDiv a b).1, (flDiv a b).2)⌋ from truncDyadic_floor _ _,
        show ((flDiv a b).1, (flDiv a b).2) = flDiv a b from rfl, hfloor]

theorem pyIntDiv_eq_ediv (A B : ℤ) (hB : 0 < B) (hBlt : B < 2 ^ 45)
    (hA : 0 ≤ A) (hAB : A ≤ 100 * B) : pyIntDiv A B = A / B := by
  unfold pyIntDiv
  rcases eq_or_lt_of_le hA with heq | hApos
  · rw [if_pos heq.symm, ← heq]
    exact (Int.zero_ediv B).symm
  · rw [if_neg (by omega : ¬ A = 0),
      if_pos (by simp [hApos, hB] : (0 < A) = (0 < B))]
    have h1 : 1 ≤ A.natAbs := by omega
    have h2 : A.natAbs ≤ 100 * B.natAbs := by omega
    have h3 : B.natAbs < 2 ^ 45 := by
      have : (2 : ℤ) ^ 45 = ((2 ^ 45 : ℕ) : ℤ) := by norm_cast
      omega
    have h4 : 1 ≤ B.natAbs := by omega
    have htr := trunc_flDiv_eq_div A.natAbs B.natAbs h4 h3 h2
    rw [htr]
    calc ((A.natAbs / B.natAbs : ℕ) : ℤ) = (A.natAbs : ℤ) / (B.natAbs : ℤ) :=
          Int.ofNat_ediv _ _
    _ = A / B := by
          rw [Int.natAbs_of_nonneg hA, Int.natAbs_of_nonneg (le_of_lt hB)]

/-! ## C3: finalize -/

/-- C3 counterexample: `finalize_report` computes the weighted average with
binary64 division truncated by `int()`, which is *not* always the floor of
the exact quotient: two reports with scores 0 and 1 and weights 1 and
`2^54 - 1` give `resiliency_score = 1`, while the claimed floor formula
gives 0. -/
theorem c3_counterexample :
    ((finalize_report
        ⟨[], [⟨"s1", 0, 1, 0, 1, ⟨0, 0, 0, 0⟩, [], []⟩,
          ⟨"s2", 0, 1, 1, 18014398509481983, ⟨0, 0, 0, 0⟩, [], []⟩],
          none, none, true, true⟩
        (.ok [])).toOption.map (fun s' => s'.summary.map
          fun su => su.resiliency_score)) = some (some 1) ∧
    ((0 * 1 + 1 * 18014398509481983) / (1 + 18014398509481983) : ℤ) = 0 := by
  constructor
  · decide
  · decide

/-- C3 (amended): `finalize_report` requires at least one accumulated
scenario report, otherwise it signals the lifecycle error; with reports
present it computes `resiliency_score` as the binary64 quotient
`sum(score*weight) / sum(weight)` truncated toward zero by `int()`.  This
equals `floor(Σ score·weight / Σ weight)` whenever the total weight lies in
`(0, 2^45)` and the weighted sum lies in `[0, 100 · total weight]` (so in
particular for the two reports `(score=100, weight=1)`, `(score=50,
weight=3)` the result is `⌊250/4⌋ = 62`), but can differ for extreme
weights (see the counterexample). -/
theorem c3_amended :
    (∀ (s : Resiliency) (oracle : Except String (List (String × Bool))),
      s.scenario_reports = [] →
      finalize_report s oracle =
        .error "No scenario reports added - nothing to finalize") ∧
    (∀ (s : Resiliency) (full_results : List (String × Bool)),
      s.scenario_reports ≠ [] →
      0 < (s.scenario_reports.map fun r => r.weight).sum →
      (s.scenario_reports.map fun r => r.weight).sum < 2 ^ 45 →
      0 ≤ (s.scenario_reports.map fun r => r.score * r.weight).sum →
      (s.scenario_reports.map fun r => r.score * r.weight).sum ≤
        100 * (s.scenario_reports.map fun r => r.weight).sum →
      ((finalize_report s (.ok full_results)).map fun s' =>
        s'.summary.map fun su => su.resiliency_score) =
        .ok (some ((s.scenario_reports.map fun r => r.score * r.weight).sum /
          (s.scenario_reports.map fun r => r.weight).sum))) := by
  constructor
  · intro s oracle hemp
    unfold finalize_report
    rw [hemp]
    rfl
  · intro s full_results hne hpos hlt hnn hub
    unfold finalize_report
    rw [if_neg (by simp [List.isEmpty_iff, hne]),
      if_neg (by omega : ¬ (s.scenario_reports.map fun r => r.weight).sum = 0)]
    have hdiv := pyIntDiv_eq_ediv _ _ hpos hlt hnn hub
    simp [hdiv, Except.map]

/-- C3 witness: the two-report scenario from the specification, hypotheses
discharged concretely; the resiliency score is `⌊(100·1 + 50·3)/4⌋ = 62`. -/
theorem c3_amended_witness :
    (((finalize_report
        ⟨[], [⟨"s1", 0, 1, 100, 1, ⟨0, 0, 0, 0⟩, [], []⟩,
          ⟨"s2", 0, 1, 50, 3, ⟨0, 0, 0, 0⟩, [], []⟩],
          none, none, true, true⟩
        (.ok [])).map fun s' => s'.summary.map
          fun su => su.resiliency_score) =
      .ok (some ((([⟨"s1", 0, 1, 100, 1, ⟨0, 0, 0, 0⟩, [], []⟩,
          ⟨"s2", 0, 1, 50, 3, ⟨0, 0, 0, 0⟩, [], []⟩] :
            List ScenarioReport).map fun r => r.score * r.weight).sum /
        (([⟨"s1", 0, 1, 100, 1, ⟨0, 0, 0, 0⟩, [], []⟩,
          ⟨"s2", 0, 1, 50, 3, ⟨0, 0, 0, 0⟩, [], []⟩] :
            List ScenarioReport).map fun r => r.weight).sum))) ∧
    ((([⟨"s1", 0, 1, 100, 1, ⟨0, 0, 0, 0⟩, [], []⟩,
        ⟨"s2", 0, 1, 50, 3, ⟨0, 0, 0, 0⟩, [], []⟩] :
          List ScenarioReport).map fun r => r.score * r.weight).sum /
      (([⟨"s1", 0, 1, 100, 1, ⟨0, 0, 0, 0⟩, [], []⟩,
        ⟨"s2", 0, 1, 50, 3, ⟨0, 0, 0, 0⟩, [], []⟩] :
          List ScenarioReport).map fun r => r.weight).sum : ℤ) = 62 :=
  ⟨c3_amended.2
      ⟨[], [⟨"s1", 0, 1, 100, 1, ⟨0, 0, 0, 0⟩, [], []⟩,
        ⟨"s2", 0, 1, 50, 3, ⟨0, 0, 0, 0⟩, [], []⟩],
        none, none, true, true⟩ []
      (by decide) (by decide) (by decide) (by decide) (by decide),
    by decide⟩

theorem floor_margin (x y : ℕ) (hy : 1 ≤ y) (hnd : ¬ y ∣ x) (T D : ℚ)
    (herr : |D - (x : ℚ) / y| ≤ T) (hT : T < 1 / y) :
    ⌊D⌋ = ((x / y : ℕ) : ℤ) := by
  have hy0 : (0 : ℚ) < y := by exact_mod_cast hy
  have hx : y * (x / y) + (x % y) = x := Nat.div_add_mod x y
  have hrne : 1 ≤ x % y := by
    rcases Nat.eq_zero_or_pos (x % y) with hz | hp
    · exact absurd (Nat.dvd_of_mod_eq_zero hz) hnd
    · exact hp
  have hrlt : x % y < y := Nat.mod_lt x (by omega)
  set q := x / y with hqdef
  set r := x % y with hrdef
  have hsplit : (x : ℚ) / y = (q : ℚ) + (r : ℚ) / y := by
    have hxq : (y : ℚ) * q + r = x := by exact_mod_cast hx
    rw [← hxq]
    field_simp
    ring
  have hr1 : 1 / (y : ℚ) ≤ (r : ℚ) / y := by
    gcongr
    exact_mod_cast hrne
  have hrb1 : (r : ℚ) / y ≤ 1 - 1 / y := by
    rw [div_le_iff₀ hy0, sub_mul, one_mul, div_mul_cancel₀ _ (ne_of_gt hy0)]
    have hn : r + 1 ≤ y := by omega
    have hc : ((r + 1 : ℕ) : ℚ) ≤ y := by exact_mod_cast hn
    push_cast at hc
    linarith
  obtain ⟨hlo, hhi⟩ := abs_le.mp herr
  rw [Int.floor_eq_iff]
  constructor
  · push_cast
    linarith
  · push_cast
    linarith

theorem pyScore_eq_formula (tp pl : ℤ) (htp0 : ¬ tp = 0) (hk0 : ¬ tp - pl = 0)
    (hsgn : (0 < tp - pl) = (0 < tp)) :
    pyScore tp pl =
      (truncDyadic
        (flTimes100 (flDiv (tp - pl).natAbs tp.natAbs).1
          (flDiv (tp - pl).natAbs tp.natAbs).2).1
        (flTimes100 (flDiv (tp - pl).natAbs tp.natAbs).1
          (flDiv (tp - pl).natAbs tp.natAbs).2).2 : ℤ) := by
  unfold pyScore
  rw [if_neg htp0, if_neg hk0, if_pos hsgn]

theorem pyScore_floor (tp pl : ℤ) (h0 : 0 ≤ pl) (h1 : pl ≤ tp)
    (htp : tp < 2 ^ 45)
    (hcase : ¬ (tp ∣ 100 * (tp - pl)) ∨ tp ∣ (tp - pl) * 2 ^ 52) :
    pyScore tp pl = (100 * (tp - pl)) / tp := by
  by_cases htp0 : tp = 0
  · subst htp0
    have : pl = 0 := by omega
    subst this
    rfl
  · by_cases hk0 : tp - pl = 0
    · unfold pyScore
      rw [if_neg htp0, if_pos hk0, hk0]
      simp
    · have htppos : 0 < tp := by omega
      have hkpos : 0 < tp - pl := by omega
      set a := (tp - pl).natAbs with hadef
      set n := tp.natAbs with hndef
      have hacast : (a : ℤ) = tp - pl := Int.natAbs_of_nonneg (by omega)
      have hncast : (n : ℤ) = tp := Int.natAbs_of_nonneg (by omega)
      have ha1 : 1 ≤ a := by omega
      have hn1 : 1 ≤ n := by omega
      have han : a ≤ n := by omega
      have hn45 : n < 2 ^ 45 := by
        have : ((2 : ℤ)) ^ 45 = ((2 ^ 45 : ℕ) : ℤ) := by norm_cast
        omega
      have hn0 : (0 : ℚ) < n := by exact_mod_cast hn1
      -- the exact quotient is at most 1, so the first exponent is ≤ 0
      have hq1 : (a : ℚ) / n ≤ 1 := by
        rw [div_le_one hn0]
        exact_mod_cast han
      have he1 : fexp a n ≤ 0 := by
        refine fexp_le_of_lt a n ha1 hn1 0 ?_
        have h2 : ((2 : ℚ)) ^ ((0 : ℤ) + 1) = 2 := by norm_num
        rw [h2]
        linarith
      have herr1 := flDiv_err a n ha1 hn1
      have herr1' : |dval (flDiv a n) - (a : ℚ) / n| ≤ 2 ^ (-53 : ℤ) :=
        le_trans herr1 (zpow_le_zpow_right₀ (by norm_num) (by omega))
      set m1 := (flDiv a n).1 with hm1def
      have hε : (flDiv a n).2 = fexp a n - 52 := by rw [flDiv_eq_branch]
      -- the second rounding operates on (m1 * 100) / 2 ^ (52 - fexp a n)
      have hεneg : ¬ (0 : ℤ) ≤ (flDiv a n).2 := by omega
      have hp2 : flTimes100 m1 (flDiv a n).2 =
          flDiv (m1 * 100) (2 ^ (-(flDiv a n).2).toNat) := by
        unfold flTimes100
        rw [if_neg hεneg]
      have hk2 : ((-(flDiv a n).2).toNat : ℤ) = 52 - fexp a n := by omega
      have hpow_ne : ((2 ^ (-(flDiv a n).2).toNat : ℕ) : ℚ) ≠ 0 := by positivity
      have hpowq : ((2 ^ (-(flDiv a n).2).toNat : ℕ) : ℚ) =
          (2 : ℚ) ^ ((52 : ℤ) - fexp a n) := by
        push_cast
        rw [← zpow_natCast (2 : ℚ) (-(flDiv a n).2).toNat, hk2]
      have hdval1 : dval (flDiv a n) = (m1 : ℚ) * 2 ^ (fexp a n - 52) := by
        rw [dval, ← hm1def, hε]
      have hV2 : ((m1 * 100 : ℕ) : ℚ) / ((2 ^ (-(flDiv a n).2).toNat : ℕ) : ℚ) =
          100 * dval (flDiv a n) := by
        rw [hpowq, hdval1, div_eq_iff (by positivity)]
        have hcanc : (2:ℚ) ^ (fexp a n - 52) * 2 ^ (52 - fexp a n) = 1 := by
          rw [← zpow_add₀ (by norm_num : (2:ℚ) ≠ 0),
            show fexp a n - 52 + (52 - fexp a n) = 0 by ring, zpow_zero]
        push_cast
        calc ((m1 : ℚ) * 100) = (m1 : ℚ) * 100 * 1 := by ring
        _ = (m1 : ℚ) * 100 *
            (2 ^ (fexp a n - 52) * 2 ^ (52 - fexp a n)) := by rw [hcanc]
        _ = 100 * ((m1 : ℚ) * 2 ^ (fexp a n - 52)) * 2 ^ (52 - fexp a n) := by
            ring
      -- the significand of the first rounding is positive
      have hm1pos : 1 ≤ m1 := by
        by_contra hm
        have hm0 : m1 = 0 := by omega
        have hd0 : dval (flDiv a n) = 0 := by
          rw [hdval1, hm0]
          simp
        have hqlow : (2 : ℚ) ^ (fexp a n) ≤ (a : ℚ) / n :=
          (fexp_spec a n ha1 hn1).1
        have habs : |(0 : ℚ) - (a : ℚ) / n| ≤ 2 ^ (fexp a n - 53) := by
          rw [← hd0]
          exact herr1
        rw [zero_sub, abs_neg, abs_of_pos (by positivity)] at habs
        have hstrict : (2 : ℚ) ^ (fexp a n - 53) < 2 ^ (fexp a n) :=
          zpow_lt_zpow_right₀ (by norm_num) (by omega)
        linarith
      have hA21 : 1 ≤ m1 * 100 := by omega
      have hB21 : 1 ≤ 2 ^ (-(flDiv a n).2).toNat := Nat.one_le_two_pow
      -- error bound of the second rounding
      have hub1 : dval (flDiv a n) ≤ (a : ℚ) / n + 2 ^ (-53 : ℤ) := by
        have := (abs_le.mp herr1').2
        linarith
      have hlb1 : (a : ℚ) / n - 2 ^ (-53 : ℤ) ≤ dval (flDiv a n) := by
        have := (abs_le.mp herr1').1
        linarith
      have h53pos : (0:ℚ) < 2 ^ (-53 : ℤ) := two_zpow_pos _
      have h53small : (2:ℚ) ^ (-53 : ℤ) ≤ 1 := by
        have := zpow_le_zpow_right₀ (by norm_num : (1:ℚ) ≤ 2)
          (by omega : (-53 : ℤ) ≤ 0)
        simpa using this
      have he2 : fexp (m1 * 100) (2 ^ (-(flDiv a n).2).toNat) ≤ 6 := by
        refine fexp_le_of_lt _ _ hA21 hB21 6 ?_
        rw [hV2]
        have h128 : ((2 : ℚ)) ^ ((6 : ℤ) + 1) = 128 := by norm_num
        rw [h128]
        nlinarith
      have herr2 := flDiv_err (m1 * 100) (2 ^ (-(flDiv a n).2).toNat) hA21 hB21
      have herr2' : |dval (flDiv (m1 * 100) (2 ^ (-(flDiv a n).2).toNat)) -
          100 * dval (flDiv a n)| ≤ 2 ^ (-47 : ℤ) := by
        rw [← hV2]
        exact le_trans herr2 (zpow_le_zpow_right₀ (by norm_num) (by omega))
      -- total distance of the final value from the exact 100 * (a / n)
      have htotal : |dval (flDiv (m1 * 100) (2 ^ (-(flDiv a n).2).toNat)) -
          ((100 * a : ℕ) : ℚ) / n| ≤ 2 ^ (-47 : ℤ) + 100 * 2 ^ (-53 : ℤ) := by
        have hgoalv : ((100 * a : ℕ) : ℚ) / n = 100 * ((a : ℚ) / n) := by
          push_cast
          ring
        rw [hgoalv]
        calc |dval (flDiv (m1 * 100) (2 ^ (-(flDiv a n).2).toNat)) -
            100 * ((a : ℚ) / n)| ≤
            |dval (flDiv (m1 * 100) (2 ^ (-(flDiv a n).2).toNat)) -
              100 * dval (flDiv a n)| +
            |100 * dval (flDiv a n) - 100 * ((a : ℚ) / n)| := by
              have := abs_sub_le
                (dval (flDiv (m1 * 100) (2 ^ (-(flDiv a n).2).toNat)))
                (100 * dval (flDiv a n)) (100 * ((a : ℚ) / n))
              exact this
        _ ≤ 2 ^ (-47 : ℤ) + 100 * 2 ^ (-53 : ℤ) := by
              have h2 : |100 * dval (flDiv a n) - 100 * ((a : ℚ) / n)| =
                  100 * |dval (flDiv a n) - (a : ℚ) / n| := by
                rw [← mul_sub, abs_mul]
                norm_num
              rw [h2]
              have hmul := mul_le_mul_of_nonneg_left herr1'
                (by norm_num : (0:ℚ) ≤ 100)
              exact add_le_add herr2' hmul
      have hsmall : (2 : ℚ) ^ (-47 : ℤ) + 100 * 2 ^ (-53 : ℤ) < 1 / n := by
        have ha45 : (2 : ℚ) ^ (-45 : ℤ) < 1 / n := by
          rw [zpow_neg, ← one_div]
          have hblt47 : (n : ℚ) < 2 ^ (45 : ℤ) := by
            have hc : (n : ℚ) < ((2 ^ 45 : ℕ) : ℚ) := by exact_mod_cast hn45
            rw [two_zpow_toNat 45 (by norm_num)]
            exact_mod_cast hn45
          rw [div_lt_div_iff (two_zpow_pos 45) hn0, one_mul, one_mul]
          exact hblt47
        have hsum : (2 : ℚ) ^ (-47 : ℤ) + 100 * 2 ^ (-53 : ℤ) < 2 ^ (-45 : ℤ) := by
          have e1 : (2 : ℚ) ^ (-45 : ℤ) = 4 * 2 ^ (-47 : ℤ) := by
            rw [show (-45 : ℤ) = 2 + -47 by ring,
              zpow_add₀ (by norm_num : (2:ℚ) ≠ 0)]
            norm_num
          have e2 : (2 : ℚ) ^ (-47 : ℤ) = 64 * 2 ^ (-53 : ℤ) := by
            rw [show (-47 : ℤ) = 6 + -53 by ring,
              zpow_add₀ (by norm_num : (2:ℚ) ≠ 0)]
            norm_num
          nlinarith [two_zpow_pos (-53 : ℤ)]
        linarith
      -- final truncation equals the floor of the rounded value
      have htr : pyScore tp pl =
          ⌊dval (flDiv (m1 * 100) (2 ^ (-(flDiv a n).2).toNat))⌋ := by
        rw [pyScore_eq_formula tp pl htp0 hk0 (by simp [hkpos, htppos]),
          ← hadef, ← hndef, ← hm1def, hp2]
        rw [truncDyadic_floor]
      have hrhs : (100 * (tp - pl)) / tp = (((100 * a) / n : ℕ) : ℤ) := by
        rw [show 100 * (tp - pl) = ((100 * a : ℕ) : ℤ) by push_cast; omega,
          show tp = ((n : ℕ) : ℤ) from hncast.symm]
        exact (Int.ofNat_ediv _ _).symm
      rw [htr, hrhs]
      by_cases hdvd100 : n ∣ 100 * a
      · -- the exact value is an integer: both roundings are exact
        have hfirst : ¬ (tp ∣ 100 * (tp - pl)) → False := by
          intro hno
          refine hno ?_
          rw [show 100 * (tp - pl) = ((100 * a : ℕ) : ℤ) by push_cast; omega,
            show tp = ((n : ℕ) : ℤ) from hncast.symm]
          exact_mod_cast hdvd100
        have hsecond : tp ∣ (tp - pl) * 2 ^ 52 := by
          rcases hcase with hc | hc
          · exact absurd hc (fun hh => hfirst hh)
          · exact hc
        have hdvd52 : n ∣ a * 2 ^ 52 := by
          have : ((n : ℕ) : ℤ) ∣ ((a * 2 ^ 52 : ℕ) : ℤ) := by
            rw [hncast]
            have : ((a * 2 ^ 52 : ℕ) : ℤ) = (tp - pl) * 2 ^ 52 := by
              push_cast
              omega
            rw [this]
            exact hsecond
          exact_mod_cast this
        have hex1 : dval (flDiv a n) = (a : ℚ) / n := by
          refine flDiv_exact a n hn1 0 (by norm_num) he1 ?_
          simpa using hdvd52
        have hvalF : ((m1 * 100 : ℕ) : ℚ) /
            ((2 ^ (-(flDiv a n).2).toNat : ℕ) : ℚ) =
            (((100 * a) / n : ℕ) : ℚ) := by
          rw [hV2, hex1, Nat.cast_div hdvd100 (ne_of_gt hn0)]
          push_cast
          ring
        have hF : ((m1 * 100 : ℕ) : ℚ) =
            (((100 * a) / n : ℕ) : ℚ) *
              ((2 ^ (-(flDiv a n).2).toNat : ℕ) : ℚ) :=
          (div_eq_iff hpow_ne).mp hvalF
        have hdvd2 : (2 ^ (-(flDiv a n).2).toNat : ℕ) ∣ m1 * 100 := by
          have hnat : m1 * 100 =
              ((100 * a) / n) * 2 ^ (-(flDiv a n).2).toNat := by
            exact_mod_cast hF
          exact ⟨(100 * a) / n, by rw [hnat]; ring⟩
        have hex2 : dval (flDiv (m1 * 100) (2 ^ (-(flDiv a n).2).toNat)) =
            ((m1 * 100 : ℕ) : ℚ) / ((2 ^ (-(flDiv a n).2).toNat : ℕ) : ℚ) := by
          refine flDiv_exact _ _ hB21 6 (by norm_num) he2 ?_
          exact dvd_mul_of_dvd_left hdvd2 _
        rw [hex2, hvalF, Int.floor_natCast]
      · -- the exact value is not an integer: the margin beats the error
        exact floor_margin (100 * a) n hn1 hdvd100 _ _ htotal hsmall

/-! ## C1: the score formula -/

theorem calculate_score_eq (defs : List (String × SloDef))
    (res hcs : List (String × Bool)) :
    (calculate_resiliency_score defs res hcs).1 =
      pyScore (calculate_resiliency_score defs res hcs).2.total_points
        (calculate_resiliency_score defs res hcs).2.points_lost := rfl

/-- C1 counterexample: the Score Calculator does not always return
`floor((total_points - points_lost) / total_points * 100)`: with custom
weights 29 (passed) and 21 (failed), `total_points = 50`,
`points_lost = 21`, the binary64 computation `int((29/50)*100)` yields 57
while the floor formula yields 58. -/
theorem c1_counterexample :
    (calculate_resiliency_score
      [("a", .record (some "warning") (some 29)),
        ("b", .record (some "warning") (some 21))]
      [("a", true), ("b", false)] []).1 = 57 ∧
    (calculate_resiliency_score
      [("a", .record (some "warning") (some 29)),
        ("b", .record (some "warning") (some 21))]
      [("a", true), ("b", false)] []).2.total_points = 50 ∧
    (calculate_resiliency_score
      [("a", .record (some "warning") (some 29)),
        ("b", .record (some "warning") (some 21))]
      [("a", true), ("b", false)] []).2.points_lost = 21 ∧
    ((100 * (50 - 21)) / 50 : ℤ) = 58 := by
  refine ⟨by decide, by decide, by decide, by decide⟩

/-- C1 (amended): the Score Calculator is a total, deterministic function
of its inputs; it returns `score = 0` when `total_points = 0` (not an
error), and otherwise computes `int(((total_points - points_lost) /
total_points) * 100)` in binary64 floating point.  That value equals
`floor((total_points - points_lost) / total_points * 100)` whenever
`0 ≤ points_lost ≤ total_points < 2^45` and either `100 * (total_points -
points_lost)` is not an exact multiple of `total_points` or `(total_points
- points_lost) / total_points` is exactly representable (`total_points`
divides `(total_points - points_lost) * 2^52`); outside those conditions
the truncation can fall one short of the floor (see the counterexample at
`total_points = 50`, `points_lost = 21`). -/
theorem c1_amended (defs : List (String × SloDef))
    (res hcs : List (String × Bool)) :
    ((calculate_resiliency_score defs res hcs).2.total_points = 0 →
      (calculate_resiliency_score defs res hcs).1 = 0) ∧
    (0 ≤ (calculate_resiliency_score defs res hcs).2.points_lost →
      (calculate_resiliency_score defs res hcs).2.points_lost ≤
        (calculate_resiliency_score defs res hcs).2.total_points →
      (calculate_resiliency_score defs res hcs).2.total_points < 2 ^ 45 →
      (¬ ((calculate_resiliency_score defs res hcs).2.total_points ∣
          100 * ((calculate_resiliency_score defs res hcs).2.total_points -
            (calculate_resiliency_score defs res hcs).2.points_lost)) ∨
        (calculate_resiliency_score defs res hcs).2.total_points ∣
          ((calculate_resiliency_score defs res hcs).2.total_points -
            (calculate_resiliency_score defs res hcs).2.points_lost) * 2 ^ 52) →
      (calculate_resiliency_score defs res hcs).1 =
        (100 * ((calculate_resiliency_score defs res hcs).2.total_points -
          (calculate_resiliency_score defs res hcs).2.points_lost)) /
          (calculate_resiliency_score defs res hcs).2.total_points) := by
  constructor
  · intro h0
    rw [calculate_score_eq, h0]
    rfl
  · intro hpl hle hlt hc
    rw [calculate_score_eq]
    exact pyScore_floor _ _ hpl hle hlt hc

/-- C1 witness: the specification's Scenario A (`{a: critical, b:
warning}`, `a` passed and `b` failed) has `total_points = 4`,
`points_lost = 1` and the hypotheses hold, so the score is
`⌊300/4⌋ = 75`. -/
theorem c1_amended_witness :
    (calculate_resiliency_score [("a", .sev "critical"), ("b", .sev "warning")]
      [("a", true), ("b", false)] []).1 =
      (100 * ((calculate_resiliency_score
        [("a", .sev "critical"), ("b", .sev "warning")]
        [("a", true), ("b", false)] []).2.total_points -
        (calculate_resiliency_score
          [("a", .sev "critical"), ("b", .sev "warning")]
          [("a", true), ("b", false)] []).2.points_lost)) /
        (calculate_resiliency_score
          [("a", .sev "critical"), ("b", .sev "warning")]
          [("a", true), ("b", false)] []).2.total_points ∧
    (calculate_resiliency_score [("a", .sev "critical"), ("b", .sev "warning")]
      [("a", true), ("b", false)] []).1 = 75 :=
  ⟨(c1_amended [("a", .sev "critical"), ("b", .sev "warning")]
      [("a", true), ("b", false)] []).2
      (by decide) (by decide) (by decide) (Or.inr (by decide)),
    by decide⟩

/-! ## C9: finalize_and_save -/

theorem hasNoNL_append (a b : String) (ha : hasNoNL a) (hb : hasNoNL b) :
    hasNoNL (a ++ b) := by
  intro c hc
  rw [String.data_append] at hc
  rcases List.mem_append.1 hc with h | h
  · exact ha c h
  · exact hb c h

theorem hasNoNL_foldl_append (l : List String) (acc : String)
    (hacc : hasNoNL acc) (hl : ∀ x ∈ l, hasNoNL x) :
    hasNoNL (l.foldl (· ++ ·) acc) := by
  induction l generalizing acc with
  | nil => exact hacc
  | cons x xs ih =>
    refine ih (acc ++ x) (hasNoNL_append _ _ hacc (hl x (by simp))) ?_
    intro y hy
    exact hl y (by simp [hy])

theorem hasNoNL_join (l : List String) (hl : ∀ x ∈ l, hasNoNL x) :
    hasNoNL (String.join l) :=
  hasNoNL_foldl_append l "" (by intro c hc; simp [String.data] at hc) hl

theorem hexDigit_ne_nl (d : ℕ) (hd : d < 16) : hexDigit d ≠ '\n' := by
  interval_cases d <;> decide

theorem hasNoNL_uEscape (n : ℕ) : hasNoNL (uEscape n) := by
  intro c hc
  unfold uEscape at hc
  rw [String.data_append] at hc
  rcases List.mem_append.1 hc with h | h
  · have hdat : ("\\u").data = ['\\', 'u'] := rfl
    rw [hdat] at h
    simp only [List.mem_cons, List.not_mem_nil, or_false] at h
    rcases h with rfl | rfl <;> decide
  · have hmk : (String.mk [hexDigit (n / 4096 % 16), hexDigit (n / 256 % 16),
        hexDigit (n / 16 % 16), hexDigit (n % 16)]).data =
        [hexDigit (n / 4096 % 16), hexDigit (n / 256 % 16),
          hexDigit (n / 16 % 16), hexDigit (n % 16)] := rfl
    rw [hmk] at h
    simp only [List.mem_cons, List.not_mem_nil, or_false] at h
    rcases h with rfl | rfl | rfl | rfl <;>
      exact hexDigit_ne_nl _ (Nat.mod_lt _ (by norm_num))

theorem hasNoNL_escapeChar (c : Char) : hasNoNL (escapeChar c) := by
  unfold escapeChar
  by_cases h1 : c = '"'
  · rw [if_pos h1]
    decide
  · rw [if_neg h1]
    by_cases h2 : c = '\\'
    · rw [if_pos h2]
      decide
    · rw [if_neg h2]
      by_cases h3 : c = '\n'
      · rw [if_pos h3]
        decide
      · rw [if_neg h3]
        by_cases h4 : c = '\t'
        · rw [if_pos h4]
          decide
        · rw [if_neg h4]
          by_cases h5 : c = '\r'
          · rw [if_pos h5]
            decide
          · rw [if_neg h5]
            by_cases h6 : c.toNat = 8
            · rw [if_pos h6]
              decide
            · rw [if_neg h6]
              by_cases h7 : c.toNat = 12
              · rw [if_pos h7]
                decide
              · rw [if_neg h7]
                by_cases h8 : c.toNat < 32
                · rw [if_pos h8]
                  exact hasNoNL_uEscape c.toNat
                · rw [if_neg h8]
                  by_cases h9 : c.toNat < 127
                  · rw [if_pos h9]
                    intro x hx
                    have hxc : x = c := by
                      have hs : (String.singleton c).data = [c] := rfl
                      rw [hs] at hx
                      simpa using hx
                    subst hxc
                    intro hcontra
                    exact h3 hcontra
                  · rw [if_neg h9]
                    by_cases h10 : c.toNat < 65536
                    · rw [if_pos h10]
                      exact hasNoNL_uEscape c.toNat
                    · rw [if_neg h10]
                      exact hasNoNL_append _ _ (hasNoNL_uEscape _) (hasNoNL_uEscape _)

theorem hasNoNL_jstr (s : String) : hasNoNL (jstr s) := by
  unfold jstr
  refine hasNoNL_append _ _ (hasNoNL_append _ _ (by decide) ?_) (by decide)
  refine hasNoNL_join _ ?_
  intro x hx
  rcases List.mem_map.1 hx with ⟨c, -, rfl⟩
  exact hasNoNL_escapeChar c

theorem hasNoNL_joinSep (sep : String) (l : List String)
    (hsep : hasNoNL sep) (hl : ∀ x ∈ l, hasNoNL x) :
    hasNoNL (joinSep sep l) := by
  induction l with
  | nil => intro c hc; simp [joinSep, String.data] at hc
  | cons x xs ih =>
    cases xs with
    | nil => exact hl x (by simp)
    | cons y ys =>
      refine hasNoNL_append _ _ (hasNoNL_append _ _ (hl x (by simp)) hsep) ?_
      refine ih ?_
      intro z hz
      exact hl z (by simp [List.mem_cons] at hz ⊢; tauto)

theorem hasNoNL_natReprAux (fuel n : ℕ) : hasNoNL (natReprAux fuel n) := by
  induction fuel generalizing n with
  | zero => intro c hc; simp [natReprAux, String.data] at hc
  | succ f ih =>
    unfold natReprAux
    by_cases hn : n < 10
    · rw [if_pos hn]
      intro c hc
      have hc' : c = Char.ofNat (48 + n) := by
        have : (String.singleton (Char.ofNat (48 + n))).data =
            [Char.ofNat (48 + n)] := rfl
        rw [this] at hc
        simpa using hc
      subst hc'
      interval_cases n <;> decide
    · rw [if_neg hn]
      refine hasNoNL_append _ _ (ih _) ?_
      intro c hc
      have hd : n % 10 < 10 := Nat.mod_lt _ (by norm_num)
      have hc' : c = Char.ofNat (48 + n % 10) := by
        have : (String.singleton (Char.ofNat (48 + n % 10))).data =
            [Char.ofNat (48 + n % 10)] := rfl
        rw [this] at hc
        simpa using hc
      subst hc'
      set d := n % 10 with hddef
      clear_value d
      interval_cases d <;> decide

theorem hasNoNL_natRepr (n : ℕ) : hasNoNL (natRepr n) := hasNoNL_natReprAux _ _

theorem hasNoNL_intRepr (i : ℤ) : hasNoNL (intRepr i) := by
  unfold intRepr
  by_cases h : i < 0
  · rw [if_pos h]
    exact hasNoNL_append _ _ (by decide) (hasNoNL_natRepr _)
  · rw [if_neg h]
    exact hasNoNL_natRepr _

theorem hasNoNL_jbool (b : Bool) : hasNoNL (jbool b) := by
  cases b <;> decide

theorem hasNoNL_jobj (fields : List (String × String))
    (h : ∀ p ∈ fields, hasNoNL p.2) : hasNoNL (jobj fields) := by
  unfold jobj
  refine hasNoNL_append _ _ (hasNoNL_append _ _ (by decide) ?_) (by decide)
  refine hasNoNL_joinSep _ _ (by decide) ?_
  intro x hx
  rcases List.mem_map.1 hx with ⟨p, hp, rfl⟩
  exact hasNoNL_append _ _
    (hasNoNL_append _ _ (hasNoNL_jstr _) (by decide)) (h p hp)

theorem hasNoNL_jarr (elems : List String) (h : ∀ x ∈ elems, hasNoNL x) :
    hasNoNL (jarr elems) := by
  unfold jarr
  exact hasNoNL_append _ _ (hasNoNL_append _ _ (by decide)
    (hasNoNL_joinSep _ _ (by decide) h)) (by decide)

theorem hasNoNL_jsonBreakdown (b : Breakdown) : hasNoNL (jsonBreakdown b) := by
  refine hasNoNL_jobj _ ?_
  intro p hp
  simp only [List.mem_cons, List.not_mem_nil, or_false] at hp
  rcases hp with rfl | rfl | rfl | rfl <;> exact hasNoNL_intRepr _

theorem hasNoNL_jsonBoolMap (m : List (String × Bool)) :
    hasNoNL (jsonBoolMap m) := by
  refine hasNoNL_jobj _ ?_
  intro p hp
  rcases List.mem_map.1 hp with ⟨q, -, rfl⟩
  exact hasNoNL_jbool _

theorem hasNoNL_jsonReport (r : ScenarioReport) : hasNoNL (jsonReport r) := by
  refine hasNoNL_jobj _ ?_
  intro p hp
  simp only [List.mem_cons, List.not_mem_nil, or_false] at hp
  rcases hp with rfl | rfl | rfl | rfl | rfl | rfl | rfl
  · exact hasNoNL_jstr _
  · refine hasNoNL_jobj _ ?_
    intro q hq
    simp only [List.mem_cons, List.not_mem_nil, or_false] at hq
    rcases hq with rfl | rfl <;> exact hasNoNL_jstr _
  · exact hasNoNL_intRepr _
  · exact hasNoNL_intRepr _
  · exact hasNoNL_jsonBreakdown _
  · exact hasNoNL_jsonBoolMap _
  · exact hasNoNL_jsonBoolMap _

theorem hasNoNL_jsonDetailed (d : Option Detailed) :
    hasNoNL (jsonDetailed d) := by
  cases d with
  | none => decide
  | some d =>
    refine hasNoNL_jobj _ ?_
    intro p hp
    simp only [List.mem_cons, List.not_mem_nil, or_false] at hp
    rcases hp with rfl
    refine hasNoNL_jarr _ ?_
    intro x hx
    rcases List.mem_map.1 hx with ⟨r, -, rfl⟩
    exact hasNoNL_jsonReport r

/-- C9: `finalize_and_save` never raises: (i) a failure inside
`finalize_report` (no reports, zero weight, or a Prometheus exception) is
caught and logged and nothing is persisted; (ii) in controller mode the
detailed report is emitted as exactly one stdout line — the sentinel token
`KRKN_RESILIENCY_REPORT_JSON:` immediately followed by the one-line JSON
payload, which contains no newline character; (iii) in any other mode
(standalone) the detailed report is written to the given path as
2-space-indented JSON. -/
theorem c9_finalize_and_save (s : Resiliency)
    (full_oracle : Except String (List (String × Bool)))
    (run_mode detailed_path : String) :
    (∀ e, finalize_report s full_oracle = .error e →
      finalize_and_save s full_oracle run_mode detailed_path =
        (s, [.log_error ("Failed to finalize resiliency scoring: " ++ e)])) ∧
    (∀ s', finalize_report s full_oracle = .ok s' →
      s'.detailed_attr_present = true → run_mode = "controller" →
      finalize_and_save s full_oracle run_mode detailed_path =
        (s', [.stdout (SENTINEL ++ jsonDetailed s'.detailed_report),
          .log_info "Resiliency report logged to stdout for krknctl."]) ∧
      hasNoNL (SENTINEL ++ jsonDetailed s'.detailed_report)) ∧
    (∀ s', finalize_report s full_oracle = .ok s' →
      s'.detailed_attr_present = true → run_mode ≠ "controller" →
      finalize_and_save s full_oracle run_mode detailed_path =
        (s', [.file_write detailed_path
            (jsonDetailedIndent s'.detailed_report),
          .log_info ("Resiliency report written: " ++ detailed_path)])) := by
  refine ⟨?_, ?_, ?_⟩
  · intro e hfin
    unfold finalize_and_save
    rw [hfin]
  · intro s' hfin hattr hmode
    constructor
    · unfold finalize_and_save get_detailed_report
      rw [hfin]
      simp [hattr, hmode]
    · exact hasNoNL_append _ _ (by decide) (hasNoNL_jsonDetailed _)
  · intro s' hfin hattr hmode
    unfold finalize_and_save get_detailed_report
    rw [hfin]
    simp [hattr, hmode]

/-- C9 witness: a state with one scenario report, finalized successfully in
controller mode; the hypotheses are discharged at the concrete input. -/
theorem c9_finalize_and_save_witness :
    finalize_and_save
      ⟨[], [⟨"s", 0, 1, 100, 1, ⟨0, 0, 0, 0⟩, [], []⟩],
        none, none, true, true⟩
      (.ok []) "controller" "p" =
      (⟨[], [⟨"s", 0, 1, 100, 1, ⟨0, 0, 0, 0⟩, [], []⟩],
        some ⟨[("s", 100)], 100, 0, 0⟩,
        some ⟨[⟨"s", 0, 1, 100, 1, ⟨0, 0, 0, 0⟩, [], []⟩]⟩, true, true⟩,
        [.stdout (SENTINEL ++ jsonDetailed
          (some ⟨[⟨"s", 0, 1, 100, 1, ⟨0, 0, 0, 0⟩, [], []⟩]⟩)),
          .log_info "Resiliency report logged to stdout for krknctl."]) ∧
    hasNoNL (SENTINEL ++ jsonDetailed
      (some ⟨[⟨"s", 0, 1, 100, 1, ⟨0, 0, 0, 0⟩, [], []⟩]⟩)) :=
  (c9_finalize_and_save
      ⟨[], [⟨"s", 0, 1, 100, 1, ⟨0, 0, 0, 0⟩, [], []⟩],
        none, none, true, true⟩
      (.ok []) "controller" "p").2.1
    ⟨[], [⟨"s", 0, 1, 100, 1, ⟨0, 0, 0, 0⟩, [], []⟩],
      some ⟨[("s", 100)], 100, 0, 0⟩,
      some ⟨[⟨"s", 0, 1, 100, 1, ⟨0, 0, 0, 0⟩, [], []⟩]⟩, true, true⟩
    rfl rfl rfl
